import Mathlib

/-! Verification development for the statement-parsing and categorization
    engine of this repository (`pdf_analyzer.py` and `mongodb_handler.py`).

    Modelling conventions:
    * Python strings are `String` / `List Char`; `str.lower` is modelled on
      ASCII and the Latin-1 letter block (the repository's texts).
    * Python floats are modelled as exact rationals `ℚ`.
    * `datetime` values are modelled as calendar dates `PDate`;
      `datetime.now()` and the current year are passed as parameters.
    * Python's `re` module is modelled by a small backtracking engine that
      covers exactly the construct set appearing in the repository's
      patterns: literals, single-character classes under greedy / lazy
      quantifiers, non-nested capture groups, and the `$` anchor under
      `re.MULTILINE`; `re.IGNORECASE` is a flag of the engine.  The engine
      reproduces Python's leftmost-then-backtracking match order.
    * The MongoDB collection of categorization patterns is modelled as a
      list of records in insertion order (`find_one` returns the first
      matching document, `insert_one` appends). -/

namespace Cartao

/-- Python's `\s` on the ASCII range (space, tab, newline, carriage return,
    vertical tab, form feed). -/
def isPySpace (c : Char) : Bool :=
  c == ' ' || c == '\t' || c == '\n' || c == '\r' || c == '\x0b' || c == '\x0c'

/-- Python's `\d` on the ASCII range. -/
def isPyDigit (c : Char) : Bool :=
  c.isDigit

/-- Python's `\w` on the ASCII range (letters, digits, underscore). -/
def isPyWord (c : Char) : Bool :=
  c.isAlphanum || c == '_'

/-- Python `str.lower` restricted to ASCII letters and the Latin-1 uppercase
    block (`À`..`Þ` except `×`), which covers the bank-statement texts. -/
def pyLower (c : Char) : Char :=
  if 'A' ≤ c ∧ c ≤ 'Z' then Char.ofNat (c.toNat + 32)
  else if 0xC0 ≤ c.toNat ∧ c.toNat ≤ 0xDE ∧ c.toNat ≠ 0xD7 then Char.ofNat (c.toNat + 32)
  else c

/-- `str.lower` on whole strings. -/
def strLower (s : String) : String :=
  ⟨s.data.map pyLower⟩

/-- Substring test on character lists (Python's `in` on `str`). -/
def isInfixL (needle : List Char) : List Char → Bool
  | [] => needle.isEmpty
  | c :: cs => needle.isPrefixOf (c :: cs) || isInfixL needle cs

/-- Python's `needle in hay` substring test. -/
def pyIn (needle hay : String) : Bool :=
  isInfixL needle.data hay.data

/-- Numeric value of an ASCII digit. -/
def digitVal (c : Char) : ℕ :=
  c.toNat - 48

/-- Python `str.strip()` (whitespace from both ends). -/
def pyStripL (s : List Char) : List Char :=
  ((s.dropWhile isPySpace).reverse.dropWhile isPySpace).reverse

/-- Python `str.strip()` on `String`. -/
def pyStrip (s : String) : String :=
  ⟨pyStripL s.data⟩

/-- Helper for `str.split()`: split on whitespace runs, dropping empties. -/
def splitWsAux : List Char → List Char → List (List Char)
  | [], acc => if acc.isEmpty then [] else [acc.reverse]
  | c :: cs, acc =>
    if isPySpace c then
      (if acc.isEmpty then splitWsAux cs [] else acc.reverse :: splitWsAux cs [])
    else splitWsAux cs (c :: acc)

/-- Python `str.split()` with no arguments. -/
def pySplit (s : String) : List String :=
  (splitWsAux s.data []).map String.mk

/-! Rational arithmetic, implemented on numerators and denominators through
    `Rat.divInt` so that the kernel can evaluate it on concrete inputs (the
    library's compiled `Rat.add`, `Rat.mul`, `Rat.inv` do not reduce);
    `qadd_eq`, `qmul_eq`, `qdiv_eq`, `qmin_eq` identify these with the field
    operations of `ℚ`. -/

/-- Kernel-evaluable rational addition. -/
def qadd (a b : ℚ) : ℚ :=
  Rat.divInt (a.num * b.den + b.num * a.den) (a.den * b.den)

/-- Kernel-evaluable rational multiplication. -/
def qmul (a b : ℚ) : ℚ :=
  Rat.divInt (a.num * b.num) (a.den * b.den)

/-- Kernel-evaluable rational division. -/
def qdiv (a b : ℚ) : ℚ :=
  Rat.divInt (a.num * b.den) (a.den * b.num)

/-- Kernel-evaluable rational minimum. -/
def qmin (a b : ℚ) : ℚ :=
  if a ≤ b then a else b

/-- `qadd` is addition. -/
theorem qadd_eq (a b : ℚ) : qadd a b = a + b := by
  conv_rhs => rw [← Rat.num_divInt_den a, ← Rat.num_divInt_den b]
  rw [Rat.divInt_add_divInt _ _ (by exact_mod_cast a.den_nz) (by exact_mod_cast b.den_nz)]
  rfl

/-- `qmul` is multiplication. -/
theorem qmul_eq (a b : ℚ) : qmul a b = a * b := by
  conv_rhs => rw [← Rat.num_divInt_den a, ← Rat.num_divInt_den b, Rat.divInt_mul_divInt']
  rfl

/-- `qdiv` is division. -/
theorem qdiv_eq (a b : ℚ) : qdiv a b = a / b :=
  (Rat.div_def' a b).symm

/-- `qmin` is the minimum. -/
theorem qmin_eq (a b : ℚ) : qmin a b = min a b :=
  (min_def a b).symm

/-! ## The regular-expression engine -/

/-- Single-character classes appearing in the repository's patterns. -/
inductive CCls
  | digit
  | space
  | wordc
  | anyNoNl
  | inSet (cs : List Char)
  | notWordSpace

/-- Does character `c` belong to the class? -/
def CCls.test : CCls → Char → Bool
  | .digit, c => isPyDigit c
  | .space, c => isPySpace c
  | .wordc, c => isPyWord c
  | .anyNoNl, c => c != '\n'
  | .inSet cs, c => cs.contains c
  | .notWordSpace, c => !(isPyWord c || isPySpace c)

/-- Quantifiers: greedy `{lo,hi}`, greedy `+`, greedy `*`, lazy `+?`. -/
inductive Quant
  | rng (lo hi : ℕ)
  | plusG
  | starG
  | plusL

/-- `hi, hi-1, ..., lo` (empty when `hi < lo`). -/
def countsDown (hi lo : ℕ) : List ℕ :=
  (List.range' lo (hi + 1 - lo)).reverse

/-- The repetition counts a quantifier tries, in Python's preference order,
    given that at most `k` consecutive characters can match the class. -/
def Quant.counts : Quant → ℕ → List ℕ
  | .rng lo hi, k => countsDown (min k hi) lo
  | .plusG, k => countsDown k 1
  | .starG, k => countsDown k 0
  | .plusL, k => List.range' 1 k

/-- Pattern atoms: literal characters, quantified classes, capture-group
    delimiters (groups in the repository's patterns never nest), and the
    MULTILINE `$` anchor. -/
inductive Atom
  | lit (c : Char)
  | cls (cc : CCls) (q : Quant)
  | gOpen (i : ℕ)
  | gClose
  | eol

/-- Length of the maximal prefix of `s` whose characters all satisfy `cc`. -/
def runLen (cc : CCls) : List Char → ℕ
  | [] => 0
  | c :: cs => if cc.test c then runLen cc cs + 1 else 0

/-- Character comparison, case-insensitive when `ci` is set. -/
def eqCh (ci : Bool) (a b : Char) : Bool :=
  if ci then pyLower a == pyLower b else a == b

/-- First `some` produced by `f` along the list. -/
def firstSome {α β : Type} : List α → (α → Option β) → Option β
  | [], _ => none
  | a :: l, f =>
    match f a with
    | some b => some b
    | none => firstSome l f

/-- Anchored matching of an atom sequence against the suffix `s` of the
    subject (whose absolute position is `pos`), with the backtracking order
    of Python's engine.  `os` is the stack of open groups, `caps` the
    completed captures `(index, start, stop)`.  Returns the end position and
    captures of the first successful alternative. -/
def matchSeq (ci : Bool) :
    List Atom → List Char → ℕ → List (ℕ × ℕ) → List (ℕ × ℕ × ℕ) →
    Option (ℕ × List (ℕ × ℕ × ℕ))
  | [], _, pos, _, caps => some (pos, caps)
  | .lit c :: rest, s, pos, os, caps =>
    match s with
    | [] => none
    | x :: xs => if eqCh ci x c then matchSeq ci rest xs (pos + 1) os caps else none
  | .cls cc q :: rest, s, pos, os, caps =>
    firstSome (q.counts (runLen cc s)) fun n =>
      matchSeq ci rest (s.drop n) (pos + n) os caps
  | .gOpen i :: rest, s, pos, os, caps => matchSeq ci rest s pos ((i, pos) :: os) caps
  | .gClose :: rest, s, pos, os, caps =>
    match os with
    | [] => none
    | (i, st) :: os' => matchSeq ci rest s pos os' ((i, st, pos) :: caps)
  | .eol :: rest, s, pos, os, caps =>
    if s.isEmpty || s.head? == some '\n' then matchSeq ci rest s pos os caps else none

/-- The result of a successful `re` match: absolute span and captures. -/
structure RMatch where
  mstart : ℕ
  mstop : ℕ
  caps : List (ℕ × ℕ × ℕ)
deriving Repr, DecidableEq

/-- `re.search` semantics starting at suffix `s` (absolute position `pos`):
    the match anchored at the leftmost feasible position wins. -/
def searchFrom (ci : Bool) (atoms : List Atom) : List Char → ℕ → Option RMatch
  | s, pos =>
    match matchSeq ci atoms s pos [] [] with
    | some (e, caps) => some ⟨pos, e, caps⟩
    | none =>
      match s with
      | [] => none
      | _ :: xs => searchFrom ci atoms xs (pos + 1)

/-- `re.search`. -/
def pySearch (ci : Bool) (atoms : List Atom) (s : String) : Option RMatch :=
  searchFrom ci atoms s.data 0

/-- The scanning loop of `re.finditer`, structured on a fuel argument so
    that it is structurally recursive (each step consumes at least one
    character of the suffix, so `s.length + 1` fuel always suffices):
    repeatedly take the leftmost match, continuing after its end (one
    character further when the match is empty). -/
def finditerAux (ci : Bool) (atoms : List Atom) : ℕ → List Char → ℕ → List RMatch
  | 0, _, _ => []
  | _ + 1, [], pos =>
    match searchFrom ci atoms [] pos with
    | none => []
    | some m => [m]
  | fuel + 1, x :: xs, pos =>
    match searchFrom ci atoms (x :: xs) pos with
    | none => []
    | some m =>
      let adv := max 1 ((if m.mstop > m.mstart then m.mstop else m.mstop + 1) - pos)
      m :: finditerAux ci atoms fuel (xs.drop (adv - 1)) (pos + adv)

/-- `re.finditer` from a suffix. -/
def finditerFrom (ci : Bool) (atoms : List Atom) (s : List Char) (pos : ℕ) : List RMatch :=
  finditerAux ci atoms (s.length + 1) s pos

/-- `re.finditer`. -/
def pyFinditer (ci : Bool) (atoms : List Atom) (s : String) : List RMatch :=
  finditerFrom ci atoms s.data 0

/-- `re.sub` semantics (literal replacement string): replace every
    non-overlapping match, scanning left to right; an empty match is
    replaced and scanning resumes one character further. -/
def subAllAux (ci : Bool) (atoms : List Atom) (repl : List Char) :
    ℕ → List Char → ℕ → List Char
  | 0, s, _ => s
  | _ + 1, [], pos =>
    match searchFrom ci atoms [] pos with
    | none => []
    | some _ => repl
  | fuel + 1, x :: xs, pos =>
    match searchFrom ci atoms (x :: xs) pos with
    | none => x :: xs
    | some m =>
      let st := m.mstart - pos
      let pre := (x :: xs).take st
      if m.mstop > m.mstart then
        let adv := max 1 (m.mstop - pos)
        pre ++ repl ++ subAllAux ci atoms repl fuel (xs.drop (adv - 1)) (pos + adv)
      else
        match (x :: xs).drop st with
        | [] => pre ++ repl
        | c :: cs2 => pre ++ repl ++ [c] ++ subAllAux ci atoms repl fuel cs2 (pos + st + 1)

/-- `re.sub` on `String` (fuel `length + 1` always suffices: every step
    consumes at least one character of the suffix). -/
def pySub (ci : Bool) (atoms : List Atom) (repl : String) (s : String) : String :=
  ⟨subAllAux ci atoms repl.data (s.data.length + 1) s.data 0⟩

/-- Captured text of group `i` of a match, sliced from the subject. -/
def groupStr (full : List Char) (m : RMatch) (i : ℕ) : String :=
  match m.caps.find? (fun t => t.1 == i) with
  | some (_, st, en) => ⟨(full.drop st).take (en - st)⟩
  | none => ""

/-! ## Python `float(str)` on decimal literals, and `parse_currency` -/

/-- Consume leading ASCII digits: accumulated value, digit count, rest. -/
def consumeDigits : ℕ → ℕ → List Char → ℕ × ℕ × List Char
  | acc, n, [] => (acc, n, [])
  | acc, n, c :: cs =>
    if isPyDigit c then consumeDigits (acc * 10 + digitVal c) (n + 1) cs
    else (acc, n, c :: cs)

/-- Optional sign: whether negative, and the rest. -/
def pySignSplit (l : List Char) : Bool × List Char :=
  match l with
  | c :: r => if c = '+' then (false, r) else if c = '-' then (true, r) else (false, l)
  | [] => (false, [])

/-- Python `float()` on ASCII decimal literals: optional sign, digits with an
    optional fraction part, optional exponent.  Exotic accepted forms
    (`inf`, `nan`, `_` separators, non-ASCII digits) are outside the model;
    they do not occur in statement amounts.  Floats are modelled as exact
    rationals. -/
def pyFloat? (s : List Char) : Option ℚ :=
  let (neg, s1) := pySignSplit s
  let (ip, ni, s2) := consumeDigits 0 0 s1
  let (fp, nf, s3) :=
    match s2 with
    | '.' :: r => consumeDigits 0 0 r
    | _ => (0, 0, s2)
  if ni + nf = 0 then none
  else
    let base : ℚ := qmul (if neg then -1 else 1) (qadd (ip : ℚ) (qdiv (fp : ℚ) ((10 ^ nf : ℤ) : ℚ)))
    match s3 with
    | [] => some base
    | e :: r =>
      if e == 'e' || e == 'E' then
        let (eneg, r1) := pySignSplit r
        let (ev, ne, r2) := consumeDigits 0 0 r1
        if ne = 0 then none
        else if r2.isEmpty then
          some (if eneg then qdiv base ((10 ^ ev : ℤ) : ℚ) else qmul base ((10 ^ ev : ℤ) : ℚ))
        else none
      else none

/-- `pdf_analyzer.parse_currency`: strip `R`, `$` and whitespace, decide the
    separator convention (`,` alone is decimal; `,` with `.` means `.` is a
    thousands separator), then `float()`, falling back to `0.0`. -/
def parse_currency (currency_str : String) : ℚ :=
  if currency_str = "" then 0
  else
    let clean := currency_str.data.filter fun c => !(c == 'R' || c == '$' || isPySpace c)
    let hasComma := clean.contains ','
    let hasDot := clean.contains '.'
    let t :=
      if hasComma && !hasDot then clean.map (fun c => if c == ',' then '.' else c)
      else if hasComma && hasDot then
        (clean.filter (fun c => !(c == '.'))).map (fun c => if c == ',' then '.' else c)
      else clean
    match pyFloat? t with
    | some q => q
    | none => 0

/-! ## The grammar registry (`PDFAnalyzer.patterns`) -/

/-- The banks of the registry, in the dictionary's insertion order. -/
inductive Bank
  | nubank | itau | bradesco | santander | caixa | btg | unicred | c6
deriving DecidableEq, Repr

/-- The registry key of each bank. -/
def bankId : Bank → String
  | .nubank => "nubank"
  | .itau => "itau"
  | .bradesco => "bradesco"
  | .santander => "santander"
  | .caixa => "caixa"
  | .btg => "btg"
  | .unicred => "unicred"
  | .c6 => "c6"

/-- A per-source grammar record (the source's unused `currency` regex entry
    is not modelled; no modelled operation reads it). -/
structure Grammar where
  transaction : List Atom
  installment : List Atom
  date_format : String
  categories : List (String × List String)

/-- Literal-character atoms for a string. -/
def lits (s : String) : List Atom :=
  s.data.map Atom.lit

/-- The `[\d.,]` class. -/
def clsAmount : CCls :=
  .inSet "0123456789.,".data

/-- `\d{n}`. -/
def dRep (n : ℕ) : Atom :=
  .cls .digit (.rng n n)

/-- The grammar of each bank, transcribed from `PDFAnalyzer.patterns`. -/
def grammar : Bank → Grammar
  | .nubank =>
    { transaction :=
        [.gOpen 1, dRep 2, .lit '/', dRep 2, .gClose, .cls .space .plusG,
         .gOpen 2, .cls .anyNoNl .plusL, .gClose, .cls .space .plusG,
         .gOpen 3, .lit 'R', .lit '$', .cls .space .starG, .cls clsAmount .plusG, .gClose]
      installment :=
        [.gOpen 1, .cls .digit .plusG, .gClose, .lit '/', .gOpen 2, .cls .digit .plusG, .gClose]
      date_format := "%d/%m"
      categories :=
        [("alimentacao", ["restaurante", "lanchonete", "delivery", "ifood", "uber eats"]),
         ("transporte", ["uber", "99", "posto", "combustivel", "estacionamento"]),
         ("saude", ["farmacia", "drogaria", "hospital", "clinica", "medico"]),
         ("compras", ["magazine", "americanas", "mercado livre", "amazon"]),
         ("servicos", ["netflix", "spotify", "internet", "telefone"])] }
  | .itau =>
    { transaction :=
        [.gOpen 1, dRep 2, .lit '/', dRep 2, .lit '/', dRep 4, .gClose, .cls .space .plusG,
         .gOpen 2, .cls .anyNoNl .plusL, .gClose, .cls .space .plusG,
         .gOpen 3, .cls clsAmount .plusG, .gClose]
      installment :=
        lits "PARC" ++ [.cls .space .starG, .gOpen 1, .cls .digit .plusG, .gClose, .lit '/',
          .gOpen 2, .cls .digit .plusG, .gClose]
      date_format := "%d/%m/%Y"
      categories :=
        [("alimentacao", ["rest", "lanch", "delivery", "ifood"]),
         ("transporte", ["uber", "taxi", "posto", "shell", "br"]),
         ("saude", ["farm", "drog", "hosp", "clin"]),
         ("compras", ["mag", "loja", "shopping"]),
         ("servicos", ["netflix", "spotify", "tim", "vivo"])] }
  | .bradesco =>
    { transaction :=
        [.gOpen 1, dRep 2, .lit '/', dRep 2, .gClose, .cls .space .plusG,
         .gOpen 2, .cls .anyNoNl .plusL, .gClose, .cls .space .plusG,
         .gOpen 3, .cls .digit .plusG, .lit ',', dRep 2, .gClose]
      installment :=
        [.gOpen 1, .cls .digit .plusG, .gClose, .lit 'ª', .cls .space .starG] ++
          lits "DE" ++ [.cls .space .starG, .gOpen 2, .cls .digit .plusG, .gClose]
      date_format := "%d/%m"
      categories :=
        [("alimentacao", ["rest", "alim", "delivery"]),
         ("transporte", ["combustivel", "posto", "uber"]),
         ("saude", ["farmacia", "saude"]),
         ("compras", ["varejo", "loja"]),
         ("servicos", ["assinatura", "streaming"])] }
  | .santander =>
    { transaction :=
        [.gOpen 1, dRep 2, .lit '/', dRep 2, .lit '/', dRep 2, .gClose, .cls .space .plusG,
         .gOpen 2, .cls .anyNoNl .plusL, .gClose, .cls .space .plusG,
         .gOpen 3, .cls clsAmount .plusG, .gClose]
      installment :=
        lits "PARCELA" ++ [.cls .space .starG, .gOpen 1, .cls .digit .plusG, .gClose, .lit '/',
          .gOpen 2, .cls .digit .plusG, .gClose]
      date_format := "%d/%m/%y"
      categories :=
        [("alimentacao", ["restaurante", "alimentacao"]),
         ("transporte", ["combustivel", "transporte"]),
         ("saude", ["saude", "farmacia"]),
         ("compras", ["compras", "varejo"]),
         ("servicos", ["servicos", "utilidades"])] }
  | .caixa =>
    { transaction :=
        [.gOpen 1, dRep 2, .lit '/', dRep 2, .lit '/', dRep 4, .gClose, .cls .space .plusG,
         .gOpen 2, .cls .anyNoNl .plusL, .gClose, .cls .space .plusG,
         .gOpen 3, .lit 'R', .lit '$', .cls .space .starG, .cls clsAmount .plusG, .gClose]
      installment :=
        [.gOpen 1, .cls .digit .plusG, .gClose, .lit '/', .gOpen 2, .cls .digit .plusG, .gClose,
         .cls .space .starG] ++ lits "PARCELA"
      date_format := "%d/%m/%Y"
      categories :=
        [("alimentacao", ["aliment", "rest", "lanch"]),
         ("transporte", ["combust", "posto", "transport"]),
         ("saude", ["farm", "saude", "medic"]),
         ("compras", ["loja", "magazine", "compra"]),
         ("servicos", ["servico", "assinatura"])] }
  | .btg =>
    { transaction :=
        [.gOpen 1, dRep 2, .cls .space .plusG, .cls .wordc (.rng 3 3), .gClose, .cls .space .plusG,
         .gOpen 2, .cls .anyNoNl .plusL, .gClose, .cls .space .plusG,
         .gOpen 3, .lit 'R', .lit '$', .cls .space .starG, .cls clsAmount .plusG, .gClose]
      installment :=
        [.lit '(', .gOpen 1, .cls .digit .plusG, .gClose, .lit '/',
         .gOpen 2, .cls .digit .plusG, .gClose, .lit ')']
      date_format := "%d %b"
      categories :=
        [("alimentacao", ["restaurante", "bread", "chef", "california"]),
         ("transporte", ["posto", "grid", "combustivel"]),
         ("saude", ["farmacia", "clinica", "medico"]),
         ("compras", ["damyller", "calcad", "livraria", "shopping"]),
         ("servicos", ["mensalidade", "hotel", "hair"])] }
  | .unicred =>
    { transaction :=
        [.gOpen 1, .cls .digit (.rng 1 2), .lit '/', .cls .wordc (.rng 3 3), .gClose,
         .cls .space .plusG, .gOpen 2, .cls .anyNoNl .plusL, .gClose, .cls .space .plusG,
         .gOpen 3, .lit 'R', .lit '$', .cls .space .starG, .cls clsAmount .plusG, .gClose]
      installment :=
        lits "Parc." ++ [.gOpen 1, .cls .digit .plusG, .gClose, .lit '/',
          .gOpen 2, .cls .digit .plusG, .gClose]
      date_format := "%d/%b"
      categories :=
        [("alimentacao", ["angeloni", "cooper", "nosso pao", "mc donalds", "pizzaria",
           "cantina", "burger", "lanches", "cafe"]),
         ("transporte", ["posto", "postos"]),
         ("saude", ["farmacia", "drogaria", "raia"]),
         ("compras", ["garden", "magazine"]),
         ("servicos", ["seguros", "anuidade", "live"])] }
  | .c6 =>
    { transaction :=
        [.gOpen 1, .cls .digit (.rng 1 2), .cls .space .plusG, .cls .wordc (.rng 3 3), .gClose,
         .cls .space .plusG, .gOpen 2, .cls .anyNoNl .plusL, .gClose, .cls .space .plusG,
         .gOpen 3, .cls clsAmount .plusG, .gClose, .eol]
      installment :=
        [.lit '-', .cls .space .starG] ++ lits "Parcela" ++ [.cls .space .plusG,
          .gOpen 1, .cls .digit .plusG, .gClose, .lit '/', .gOpen 2, .cls .digit .plusG, .gClose]
      date_format := "%d %b"
      categories :=
        [("alimentacao", ["ifood", "restaurante"]),
         ("transporte", ["latam", "uber", "posto"]),
         ("saude", ["farmacia", "clinica"]),
         ("compras", ["amazon", "flexform", "mysadigital"]),
         ("servicos", ["paypal", "microsoft", "google", "prime", "xbox", "anuidade"])] }

/-- The registry in dictionary order (the order `self.patterns` iterates). -/
def registry : List Bank :=
  [.nubank, .itau, .bradesco, .santander, .caixa, .btg, .unicred, .c6]

/-- `PDFAnalyzer.detect_bank_format`: the literal-name chain in source order,
    then the first registry grammar whose transaction pattern matches
    (IGNORECASE and MULTILINE), then the `'nubank'` default. -/
def detect_bank_format (text : String) : String :=
  let t := strLower text
  if pyIn "nubank" t || pyIn "nu pagamentos" t then "nubank"
  else if pyIn "itau" t || pyIn "itaú" t then "itau"
  else if pyIn "bradesco" t then "bradesco"
  else if pyIn "santander" t then "santander"
  else if pyIn "btg" t || pyIn "btg pactual" t then "btg"
  else if pyIn "unicred" t then "unicred"
  else if pyIn "c6" t || pyIn "c6 bank" t || pyIn "banco c6" t || pyIn "c6 carbon" t then "c6"
  else if pyIn "caixa" t || pyIn "cef" t then "caixa"
  else
    match registry.find? (fun b => (pySearch true (grammar b).transaction text).isSome) with
    | some b => bankId b
    | none => "nubank"

/-- The category loop of `categorize_transaction`: first category one of
    whose keywords occurs in the lowercased description. -/
def catLoop (dl : String) : List (String × List String) → String
  | [] => "outros"
  | (cat, kws) :: rest => if kws.any (fun k => pyIn k dl) then cat else catLoop dl rest

/-- `PDFAnalyzer.categorize_transaction`. -/
def categorize_transaction (description : String) (bank : Bank) : String :=
  catLoop (strLower description) (grammar bank).categories

/-! ## `datetime.strptime` on the grammars' formats, and `parse_date` -/

/-- A calendar date (the time-of-day part of `datetime` is never read by the
    modelled code). -/
structure PDate where
  year : ℕ
  month : ℕ
  day : ℕ
deriving DecidableEq, Repr

/-- Gregorian leap year. -/
def isLeap (y : ℕ) : Bool :=
  y % 4 == 0 && (y % 100 != 0 || y % 400 == 0)

/-- Days in a month. -/
def daysInMonth (y m : ℕ) : ℕ :=
  if m = 2 then (if isLeap y then 29 else 28)
  else if m = 4 ∨ m = 6 ∨ m = 9 ∨ m = 11 then 30
  else 31

/-- The `datetime` constructor's validation (year within `MINYEAR..MAXYEAR`,
    month and day in range); `none` models the raised `ValueError`. -/
def mkDate? (y m d : ℕ) : Option PDate :=
  if 1 ≤ y ∧ y ≤ 9999 ∧ 1 ≤ m ∧ m ≤ 12 ∧ 1 ≤ d ∧ d ≤ daysInMonth y m then some ⟨y, m, d⟩
  else none

/-- The format directives used by the grammars' date formats. -/
inductive FmtTok
  | d | m | yFull | y2 | b | litc (c : Char)

/-- Tokenize a `strptime` format string. -/
def fmtToks : List Char → List FmtTok
  | [] => []
  | '%' :: c :: rest =>
    (match c with
     | 'd' => [.d]
     | 'm' => [.m]
     | 'Y' => [.yFull]
     | 'y' => [.y2]
     | 'b' => [.b]
     | _ => [.litc '%', .litc c]) ++ fmtToks rest
  | c :: rest => .litc c :: fmtToks rest

/-- The partially filled time structure (`strptime` defaults 1900-01-01). -/
structure TMFields where
  ty : ℕ := 1900
  tm : ℕ := 1
  td : ℕ := 1

/-- Candidates for the 1-or-2-digit numeric directives, in the preference
    order of `_strptime`'s compiled regex (two digits with value `1..hi`
    first, then one nonzero digit). -/
def numCands (hi : ℕ) : List Char → List (ℕ × List Char)
  | a :: b :: r =>
    (if isPyDigit a ∧ isPyDigit b ∧ 1 ≤ 10 * digitVal a + digitVal b ∧
        10 * digitVal a + digitVal b ≤ hi
     then [(10 * digitVal a + digitVal b, r)] else []) ++
    (if isPyDigit a ∧ 1 ≤ digitVal a then [(digitVal a, b :: r)] else [])
  | [a] => if isPyDigit a ∧ 1 ≤ digitVal a then [(digitVal a, [])] else []
  | [] => []

/-- Exactly `n` digits (`%Y` is four, `%y` is two). -/
def digitsN (n : ℕ) (s : List Char) : Option (ℕ × List Char) :=
  let pre := s.take n
  if pre.length = n ∧ pre.all isPyDigit then
    some (pre.foldl (fun a c => a * 10 + digitVal c) 0, s.drop n)
  else none

/-- English three-letter month abbreviations (the C locale of `%b`). -/
def monthAbbrevs : List (String × ℕ) :=
  [("jan", 1), ("feb", 2), ("mar", 3), ("apr", 4), ("may", 5), ("jun", 6),
   ("jul", 7), ("aug", 8), ("sep", 9), ("oct", 10), ("nov", 11), ("dec", 12)]

/-- `_strptime`'s matching loop: directives fill the fields, the whole input
    must be consumed, literals (like the format regex) are case-insensitive. -/
def strptimeLoop : List FmtTok → List Char → TMFields → Option TMFields
  | [], s, f => if s.isEmpty then some f else none
  | .litc c :: rest, s, f =>
    match s with
    | [] => none
    | x :: xs => if eqCh true x c then strptimeLoop rest xs f else none
  | .d :: rest, s, f =>
    firstSome (numCands 31 s) fun p => strptimeLoop rest p.2 { f with td := p.1 }
  | .m :: rest, s, f =>
    firstSome (numCands 12 s) fun p => strptimeLoop rest p.2 { f with tm := p.1 }
  | .yFull :: rest, s, f =>
    match digitsN 4 s with
    | some (v, r) => strptimeLoop rest r { f with ty := v }
    | none => none
  | .y2 :: rest, s, f =>
    match digitsN 2 s with
    | some (v, r) => strptimeLoop rest r { f with ty := if v ≤ 68 then 2000 + v else 1900 + v }
    | none => none
  | .b :: rest, s, f =>
    firstSome monthAbbrevs fun p =>
      if (p.1.data.map pyLower).isPrefixOf (s.map pyLower) then
        strptimeLoop rest (s.drop 3) { f with tm := p.2 }
      else none

/-- `datetime.strptime` restricted to the date directives above: parse the
    fields, then validate through the `datetime` constructor. -/
def strptimeD (date_str date_format : String) : Option PDate :=
  match strptimeLoop (fmtToks date_format.data) date_str.data {} with
  | some f => mkDate? f.ty f.tm f.td
  | none => none

/-- The Portuguese month-abbreviation table of `parse_date`, in its
    insertion order. -/
def monthsPt : List (String × String) :=
  [("jan", "Jan"), ("fev", "Feb"), ("mar", "Mar"), ("abr", "Apr"),
   ("mai", "May"), ("jun", "Jun"), ("jul", "Jul"), ("ago", "Aug"),
   ("set", "Sep"), ("out", "Oct"), ("nov", "Nov"), ("dez", "Dec")]

/-- Python `str.replace` (all occurrences, left to right, non-overlapping),
    on a fuel argument for structural recursion (`length + 1` suffices). -/
def replaceAux (pat rep : List Char) : ℕ → List Char → List Char
  | 0, s => s
  | _ + 1, [] => []
  | fuel + 1, c :: cs =>
    if pat.isPrefixOf (c :: cs) ∧ ¬ pat.isEmpty then
      rep ++ replaceAux pat rep fuel (cs.drop (pat.length - 1))
    else c :: replaceAux pat rep fuel cs

/-- Python `str.replace` on character lists. -/
def replaceAllL (pat rep s : List Char) : List Char :=
  replaceAux pat rep (s.length + 1) s

/-- Python `str.replace` on `String`. -/
def pyReplace (s pat rep : String) : String :=
  ⟨replaceAllL pat.data rep.data s.data⟩

/-- The month transliteration step of `parse_date`: on the first Portuguese
    abbreviation found in the lowercased string, lowercase the whole string
    and replace that abbreviation by the English one. -/
def translitMonths (date_str : String) : String :=
  match monthsPt.find? (fun p => pyIn p.1 (strLower date_str)) with
  | some (pt, en) => pyReplace (strLower date_str) pt en
  | none => date_str

/-- Python truthiness of the optional `year` argument. -/
def yearTruthy : Option ℕ → Bool
  | some y => y != 0
  | none => false

/-- `PDFAnalyzer.parse_date`.  `dateutil` is the free-form fallback parser
    (`dateutil.parser.parse`, an external library) and `now` is
    `datetime.now()`, both supplied as parameters; `none` from `dateutil`
    models any exception it raises. -/
def parse_date (dateutil : String → Option PDate) (now : PDate)
    (date_str : String) (date_format : String) (year : Option ℕ) : PDate :=
  let p :=
    if yearTruthy year && !(pyIn "%Y" date_format) then
      (date_str ++ "/" ++ toString (year.getD 0), date_format ++ "/%Y")
    else (date_str, date_format)
  let ds2 := if pyIn "%b" p.2 then translitMonths p.1 else p.1
  match strptimeD ds2 p.2 with
  | some d => d
  | none =>
    match dateutil ds2 with
    | some d => d
    | none => now

/-! ## `extract_transactions` -/

/-- `datetime.strftime('%d/%m/%Y')`: zero-padded day and month. -/
def pad2 (n : ℕ) : String :=
  if n < 10 then "0" ++ toString n else toString n

/-- The `'%d/%m/%Y'` rendering of the transaction date. -/
def strftimeDMY (d : PDate) : String :=
  pad2 d.day ++ "/" ++ pad2 d.month ++ "/" ++ toString d.year

/-- `int()` of a captured `\d+` group. -/
def pyIntNat (s : String) : ℕ :=
  s.data.foldl (fun a c => a * 10 + digitVal c) 0

/-- The transaction dictionary built per match. -/
structure Transaction where
  data : String
  descricao : String
  parcelado : String
  parcela_atual : Option ℕ
  parcela_total : Option ℕ
  valor : ℚ
  categoria : String
  banco : String
deriving DecidableEq, Repr

/-- The installment detection block: search the grammar's installment
    pattern (IGNORECASE) in the description; on a match both captured
    integers are kept, otherwise both output fields are absent. -/
def installmentOf (bank : Bank) (description : String) : Bool × Option ℕ × Option ℕ :=
  match pySearch true (grammar bank).installment description with
  | some m =>
    (true, some (pyIntNat (groupStr description.data m 1)),
      some (pyIntNat (groupStr description.data m 2)))
  | none => (false, none, none)

/-- The per-match body of `extract_transactions` (the code inside the
    per-iteration `try`); for the eight grammars every step is total, so the
    body always returns a transaction. -/
def processMatch (currentYear : ℕ) (now : PDate) (dateutil : String → Option PDate)
    (text : String) (bank : Bank) (m : RMatch) : Option Transaction :=
  let date_str := groupStr text.data m 1
  let description := groupStr text.data m 2
  let amount_str := groupStr text.data m 3
  let transaction_date := parse_date dateutil now date_str (grammar bank).date_format (some currentYear)
  let amount := parse_currency amount_str
  let inst := installmentOf bank description
  some
    { data := strftimeDMY transaction_date
      descricao := pyStrip description
      parcelado := if inst.1 then "Sim" else "Não"
      parcela_atual := inst.2.1
      parcela_total := inst.2.2
      valor := amount
      categoria := categorize_transaction description bank
      banco := bankId bank }

/-- The extraction loop: per-match processing is containment-wrapped, a
    failing match (`none`) is skipped and the loop continues. -/
def processLoop {M T : Type} : List M → (M → Option T) → List T
  | [], _ => []
  | x :: xs, f =>
    match f x with
    | some t => t :: processLoop xs f
    | none => processLoop xs f

/-- `PDFAnalyzer.extract_transactions`: run the grammar's transaction
    pattern globally (IGNORECASE, MULTILINE) and process each match. -/
def extract_transactions (currentYear : ℕ) (now : PDate)
    (dateutil : String → Option PDate) (text : String) (bank : Bank) : List Transaction :=
  processLoop (pyFinditer true (grammar bank).transaction text)
    (processMatch currentYear now dateutil text bank)

/-! ## The categorization-pattern store (`mongodb_handler`)

    The `categorization_patterns` collection is a list of documents in
    insertion order; `find_one` returns the first matching document,
    `insert_one` appends, `update_one` by `_id` rewrites exactly the found
    document.  Timestamps (`datetime.now()`) are abstract ticks `ℕ` passed
    in by the caller.  The connected-collection guard and the `try/except`
    wrappers of the handler never fire in the modelled (connected,
    exception-free) store, so the model covers the connected path. -/

/-- The pattern `\s*\d+/\d+\s*` of `_normalize_description`. -/
def normPat1 : List Atom :=
  [.cls .space .starG, .cls .digit .plusG, .lit '/', .cls .digit .plusG, .cls .space .starG]

/-- The pattern `\s*parcela\s*\d+\s*`. -/
def normPat2 : List Atom :=
  [.cls .space .starG] ++ lits "parcela" ++ [.cls .space .starG, .cls .digit .plusG, .cls .space .starG]

/-- The pattern `[^\w\s]`. -/
def normPat3 : List Atom :=
  [.cls .notWordSpace (.rng 1 1)]

/-- The pattern `\s+`. -/
def normPat4 : List Atom :=
  [.cls .space .plusG]

/-- `MongoDBHandler._normalize_description`: lowercase, strip installment
    markers, strip punctuation, collapse whitespace, trim. -/
def _normalize_description (descricao : String) : String :=
  if descricao = "" then ""
  else
    let n1 := strLower descricao
    let n2 := pySub false normPat1 " " n1
    let n3 := pySub false normPat2 " " n2
    let n4 := pySub false normPat3 " " n3
    let n5 := pySub false normPat4 " " n4
    pyStrip n5

/-- The stop-word set of `_extract_keywords`. -/
def stop_words : List String :=
  ["de", "da", "do", "das", "dos", "em", "na", "no", "nas", "nos",
   "para", "com", "por", "sobre", "entre", "até", "desde", "durante",
   "a", "o", "as", "os", "um", "uma", "uns", "umas", "e", "ou",
   "mas", "porém", "contudo", "entretanto", "logo", "portanto",
   "se", "quando", "onde", "como", "que", "quem", "qual", "quais"]

/-- `MongoDBHandler._extract_keywords`: words longer than two characters
    that are not stop words. -/
def _extract_keywords (descricao : String) : List String :=
  (pySplit descricao).filter fun w => decide (2 < w.length) && !(stop_words.contains w)

/-- `MongoDBHandler._calculate_similarity`: Jaccard similarity of the
    whitespace-token sets. -/
def _calculate_similarity (desc1 desc2 : String) : ℚ :=
  if desc1 = "" ∨ desc2 = "" then 0
  else
    let words1 := (pySplit desc1).toFinset
    let words2 := (pySplit desc2).toFinset
    if words1 = ∅ ∨ words2 = ∅ then 0
    else if (words1 ∪ words2).card = 0 then 0
    else qdiv ((words1 ∩ words2).card : ℚ) ((words1 ∪ words2).card : ℚ)

/-- A document of the `categorization_patterns` collection. -/
structure CatPattern where
  original_desc : String
  normalized_desc : String
  categoria : String
  banco : Option String
  origem_cartao : Option String
  usage_count : ℕ
  created_at : ℕ
  last_used : ℕ
  confidence_score : ℚ
deriving DecidableEq, Repr

/-- `find_one {normalized_desc: nd}`. -/
def findOneNd (store : List CatPattern) (nd : String) : Option CatPattern :=
  store.find? fun p => p.normalized_desc == nd

/-- `find_one {normalized_desc: nd, categoria: cat}`. -/
def findOneNdCat (store : List CatPattern) (nd cat : String) : Option CatPattern :=
  store.find? fun p => p.normalized_desc == nd && p.categoria == cat

/-- Stable descending insertion by `usage_count`. -/
def insertDesc (p : CatPattern) : List CatPattern → List CatPattern
  | [] => [p]
  | q :: qs => if q.usage_count < p.usage_count then p :: q :: qs else q :: insertDesc p qs

/-- Stable sort by descending `usage_count`. -/
def sortUsageDesc : List CatPattern → List CatPattern
  | [] => []
  | p :: ps => insertDesc p (sortUsageDesc ps)

/-- The keyword query of the partial-match stage:
    `find({normalized_desc: {regex: kw}}).sort(usage_count, -1).limit(5)`.
    Keywords come from normalized descriptions, so they contain no regex
    metacharacters and the regex test is substring containment.  MongoDB
    leaves the order of equal `usage_count` documents unspecified; the model
    fixes the stable (insertion-order-preserving) descending sort. -/
def candidatesFor (store : List CatPattern) (kw : String) : List CatPattern :=
  (sortUsageDesc (store.filter fun p => pyIn kw p.normalized_desc)).take 5

/-- The candidate score: Jaccard similarity plus the usage bonus
    `min(usage_count * 0.1, 0.3)`. -/
def scoreOf (nd : String) (p : CatPattern) : ℚ :=
  qadd (_calculate_similarity nd p.normalized_desc)
    (qmin (qmul (p.usage_count : ℚ) (Rat.divInt 1 10)) (Rat.divInt 3 10))

/-- One step of the best-candidate loop (`score > best_score` and the 0.6
    threshold). -/
def bestStep (nd : String) (acc : Option CatPattern × ℚ) (p : CatPattern) :
    Option CatPattern × ℚ :=
  let score := scoreOf nd p
  if score > acc.2 ∧ score > Rat.divInt 3 5 then (some p, score) else acc

/-- The per-keyword loop body: keywords shorter than three characters are
    skipped, then the (at most five) candidates are folded. -/
def bestOverKw (store : List CatPattern) (nd : String) (acc : Option CatPattern × ℚ)
    (kw : String) : Option CatPattern × ℚ :=
  if kw.length < 3 then acc
  else (candidatesFor store kw).foldl (bestStep nd) acc

/-- The result dictionary of `find_matching_category`; keys absent from the
    not-found dictionary are `none`, and the returned `pattern_id` is
    modelled as a reference to the matched document. -/
structure MatchResult where
  found : Bool
  categoria : Option String
  confidence : ℚ
  pattern : Option CatPattern
  match_type : Option String
deriving DecidableEq, Repr

/-- `MongoDBHandler.find_matching_category` on a connected store. -/
def find_matching_category (store : List CatPattern) (descricao : String) : MatchResult :=
  let nd := _normalize_description descricao
  match findOneNd store nd with
  | some p => ⟨true, some p.categoria, Rat.divInt 95 100, some p, some "exact"⟩
  | none =>
    let best := (_extract_keywords nd).foldl (bestOverKw store nd) (none, 0)
    match best.1 with
    | some p => ⟨true, some p.categoria, qmin best.2 (Rat.divInt 9 10), some p, some "partial"⟩
    | none => ⟨false, none, 0, none, none⟩

/-- Rewrite the first document satisfying `pred` (MongoDB `update_one` via
    the `_id` of the `find_one` result). -/
def updateFirst (pred : CatPattern → Bool) (f : CatPattern → CatPattern) :
    List CatPattern → List CatPattern
  | [] => []
  | p :: ps => if pred p then f p :: ps else p :: updateFirst pred f ps

/-- The `usage_count` increment and `last_used` refresh of an existing
    pattern. -/
def bumpPattern (now : ℕ) (p : CatPattern) : CatPattern :=
  { p with usage_count := p.usage_count + 1, last_used := now }

/-- `MongoDBHandler.save_categorization_pattern` on a connected store:
    increment the existing `(normalized_desc, categoria)` pattern, or insert
    a fresh one with `usage_count = 1`. -/
def save_categorization_pattern (now : ℕ) (store : List CatPattern)
    (descricao categoria : String) (banco origem_cartao : Option String) :
    List CatPattern :=
  let nd := _normalize_description descricao
  match findOneNdCat store nd categoria with
  | some _ =>
    updateFirst (fun p => p.normalized_desc == nd && p.categoria == categoria)
      (bumpPattern now) store
  | none =>
    store ++ [{ original_desc := descricao, normalized_desc := nd, categoria := categoria,
                banco := banco, origem_cartao := origem_cartao, usage_count := 1,
                created_at := now, last_used := now, confidence_score := 1 }]

/-! ## MD5 and `generate_transaction_hash` -/

/-- UTF-8 encoding of one character. -/
def utf8Bytes (c : Char) : List ℕ :=
  let n := c.toNat
  if n < 0x80 then [n]
  else if n < 0x800 then [0xC0 + n / 0x40, 0x80 + n % 0x40]
  else if n < 0x10000 then [0xE0 + n / 0x1000, 0x80 + n / 0x40 % 0x40, 0x80 + n % 0x40]
  else [0xF0 + n / 0x40000, 0x80 + n / 0x1000 % 0x40, 0x80 + n / 0x40 % 0x40, 0x80 + n % 0x40]

/-- UTF-8 bytes of a string (`str.encode('utf-8')`). -/
def strUtf8 (s : String) : List ℕ :=
  (s.data.map utf8Bytes).flatten

/-- The 64 MD5 sine constants. -/
def md5K : List ℕ :=
  [3614090360, 3905402710, 606105819, 3250441966, 4118548399, 1200080426, 2821735955, 4249261313,
   1770035416, 2336552879, 4294925233, 2304563134, 1804603682, 4254626195, 2792965006, 1236535329,
   4129170786, 3225465664, 643717713, 3921069994, 3593408605, 38016083, 3634488961, 3889429448,
   568446438, 3275163606, 4107603335, 1163531501, 2850285829, 4243563512, 1735328473, 2368359562,
   4294588738, 2272392833, 1839030562, 4259657740, 2763975236, 1272893353, 4139469664, 3200236656,
   681279174, 3936430074, 3572445317, 76029189, 3654602809, 3873151461, 530742520, 3299628645,
   4096336452, 1126891415, 2878612391, 4237533241, 1700485571, 2399980690, 4293915773, 2240044497,
   1873313359, 4264355552, 2734768916, 1309151649, 4149444226, 3174756917, 718787259, 3951481745]

/-- The per-round left-rotation amounts. -/
def md5S : List ℕ :=
  [7, 12, 17, 22, 7, 12, 17, 22, 7, 12, 17, 22, 7, 12, 17, 22,
   5, 9, 14, 20, 5, 9, 14, 20, 5, 9, 14, 20, 5, 9, 14, 20,
   4, 11, 16, 23, 4, 11, 16, 23, 4, 11, 16, 23, 4, 11, 16, 23,
   6, 10, 15, 21, 6, 10, 15, 21, 6, 10, 15, 21, 6, 10, 15, 21]

/-- 32-bit left rotation (rotation amounts here are always in `1..31`). -/
def rotl32 (x n : ℕ) : ℕ :=
  (x * 2 ^ n + x / 2 ^ (32 - n)) % 2 ^ 32

/-- Little-endian bytes of a 64-bit length. -/
def le64 (n : ℕ) : List ℕ :=
  [n % 256, n / 2 ^ 8 % 256, n / 2 ^ 16 % 256, n / 2 ^ 24 % 256,
   n / 2 ^ 32 % 256, n / 2 ^ 40 % 256, n / 2 ^ 48 % 256, n / 2 ^ 56 % 256]

/-- MD5 padding: `0x80`, zeros to 56 mod 64, the bit length little-endian. -/
def md5Pad (msg : List ℕ) : List ℕ :=
  let L := msg.length
  msg ++ [0x80] ++ List.replicate ((119 - L % 64) % 64) 0 ++ le64 (L * 8 % 2 ^ 64)

/-- Split into 64-byte blocks (fuel-structured; `length` blocks suffice). -/
def chunksAux : ℕ → List ℕ → List (List ℕ)
  | 0, _ => []
  | _ + 1, [] => []
  | fuel + 1, x :: xs => ((x :: xs).take 64) :: chunksAux fuel (xs.drop 63)

/-- Split into 64-byte blocks. -/
def chunks64 (l : List ℕ) : List (List ℕ) :=
  chunksAux l.length l

/-- Little-endian word value of a byte list. -/
def leWord (l : List ℕ) : ℕ :=
  l.reverse.foldl (fun a b => a * 256 + b) 0

/-- Word `i` of a 64-byte block. -/
def blockWords (bl : List ℕ) (i : ℕ) : ℕ :=
  leWord ((bl.drop (4 * i)).take 4)

/-- The nonlinear function and message index of round `i` (bitwise NOT of a
    32-bit word `w` is `2^32 - 1 - w`). -/
def md5F (i b c d : ℕ) : ℕ × ℕ :=
  if i < 16 then ((b &&& c) ||| ((2 ^ 32 - 1 - b) &&& d), i)
  else if i < 32 then ((d &&& b) ||| ((2 ^ 32 - 1 - d) &&& c), (5 * i + 1) % 16)
  else if i < 48 then (b ^^^ c ^^^ d, (3 * i + 5) % 16)
  else (c ^^^ (b ||| (2 ^ 32 - 1 - d)), 7 * i % 16)

/-- One MD5 operation. -/
def md5Round (M : ℕ → ℕ) (st : ℕ × ℕ × ℕ × ℕ) (i : ℕ) : ℕ × ℕ × ℕ × ℕ :=
  let a := st.1
  let b := st.2.1
  let c := st.2.2.1
  let d := st.2.2.2
  let fg := md5F i b c d
  (d, (b + rotl32 ((a + fg.1 + md5K.getD i 0 + M fg.2) % 2 ^ 32) (md5S.getD i 0)) % 2 ^ 32, b, c)

/-- Process one 64-byte block. -/
def md5Block (st : ℕ × ℕ × ℕ × ℕ) (bl : List ℕ) : ℕ × ℕ × ℕ × ℕ :=
  let r := (List.range 64).foldl (md5Round (blockWords bl)) st
  ((st.1 + r.1) % 2 ^ 32, (st.2.1 + r.2.1) % 2 ^ 32,
   (st.2.2.1 + r.2.2.1) % 2 ^ 32, (st.2.2.2 + r.2.2.2) % 2 ^ 32)

/-- The MD5 initialization vector. -/
def md5Init : ℕ × ℕ × ℕ × ℕ :=
  (0x67452301, 0xefcdab89, 0x98badcfe, 0x10325476)

/-- The MD5 state after digesting a byte message. -/
def md5Words (msg : List ℕ) : ℕ × ℕ × ℕ × ℕ :=
  (chunks64 (md5Pad msg)).foldl md5Block md5Init

/-- Little-endian bytes of one state word. -/
def le32 (n : ℕ) : List ℕ :=
  [n % 256, n / 2 ^ 8 % 256, n / 2 ^ 16 % 256, n / 2 ^ 24 % 256]

/-- The 16 digest bytes. -/
def md5Bytes (msg : List ℕ) : List ℕ :=
  let r := md5Words msg
  le32 r.1 ++ le32 r.2.1 ++ le32 r.2.2.1 ++ le32 r.2.2.2

/-- Lowercase hex digit. -/
def hexDigit (n : ℕ) : Char :=
  if n < 10 then Char.ofNat (48 + n) else Char.ofNat (87 + n)

/-- `hexdigest()`: 32 lowercase hex characters. -/
def md5Hex (msg : List ℕ) : String :=
  ⟨((md5Bytes msg).map fun b => [hexDigit (b / 16), hexDigit (b % 16)]).flatten⟩

/-- The digest packed as one natural number (little-endian word order);
    used to state that the digest space is finite. -/
def md5Val (msg : List ℕ) : ℕ :=
  let r := md5Words msg
  r.1 + 2 ^ 32 * r.2.1 + 2 ^ 64 * r.2.2.1 + 2 ^ 96 * r.2.2.2

/-- The five identifying fields read by `generate_transaction_hash`, each
    modelled by its `str()` rendering as joined into the key (Python's
    `str`/`repr` is injective on the stored float amounts, so distinct
    stored field values have distinct renderings). -/
structure TxKey where
  data : String
  descricao : String
  valor : String
  banco : String
  origem_cartao : String
deriving DecidableEq, Repr

/-- The delimiter-joined canonical key `'|'.join(str(field))`. -/
def canonicalKey (t : TxKey) : String :=
  String.intercalate "|" [t.data, t.descricao, t.valor, t.banco, t.origem_cartao]

/-- `MongoDBHandler.generate_transaction_hash`: MD5 hex digest of the
    UTF-8 bytes of the canonical key. -/
def generate_transaction_hash (t : TxKey) : String :=
  md5Hex (strUtf8 (canonicalKey t))

/-! ## Claim C9: deterministic keyword classification -/

/-- The loop of `categorize_transaction` returns the first table entry one
    of whose keywords occurs in the description. -/
theorem catLoop_eq_find (dl : String) (l : List (String × List String)) :
    catLoop dl l =
      ((l.find? fun p => p.2.any fun k => pyIn k dl).map Prod.fst).getD "outros" := by
  induction l with
  | nil => rfl
  | cons p rest ih =>
    obtain ⟨cat, kws⟩ := p
    by_cases h : (kws.any fun k => pyIn k dl) = true
    · simp [catLoop, List.find?_cons, h]
    · simp only [Bool.not_eq_true] at h
      simp [catLoop, List.find?_cons, h, ih]

/-- C9: `categorize_transaction` lowercases the description, iterates the
    grammar's category→keyword map in its defined order and returns the
    first category one of whose keywords occurs as a substring of the
    lowercased description, defaulting to `"outros"`; under the nubank
    grammar (whose table maps `"uber"` to `"transporte"`),
    `"UBER TRIP SAO PAULO"` yields `"transporte"`, and a description
    matching no keyword yields `"outros"`. -/
theorem c9_categorize_first_match :
    (∀ (description : String) (bank : Bank),
      categorize_transaction description bank =
        ((((grammar bank).categories.find? fun p =>
            p.2.any fun k => pyIn k (strLower description)).map Prod.fst).getD "outros")) ∧
    categorize_transaction "UBER TRIP SAO PAULO" Bank.nubank = "transporte" ∧
    categorize_transaction "ZZZZ" Bank.nubank = "outros" :=
  ⟨fun _ _ => catLoop_eq_find _ _, by decide, by decide⟩

/-! ## Claim C5: format detection -/

/-- The ordered literal-name table of `detect_bank_format`'s `if` chain. -/
def literalTable : List (String × List String) :=
  [("nubank", ["nubank", "nu pagamentos"]),
   ("itau", ["itau", "itaú"]),
   ("bradesco", ["bradesco"]),
   ("santander", ["santander"]),
   ("btg", ["btg", "btg pactual"]),
   ("unicred", ["unicred"]),
   ("c6", ["c6", "c6 bank", "banco c6", "c6 carbon"]),
   ("caixa", ["caixa", "cef"])]

/-- The claim-shaped detector: first literal match in check order, else the
    first registry grammar whose transaction pattern matches, else the
    `'nubank'` default. -/
def detectSpec (text : String) : String :=
  match literalTable.find? fun p => p.2.any fun l => pyIn l (strLower text) with
  | some p => p.1
  | none =>
    match registry.find? fun b => (pySearch true (grammar b).transaction text).isSome with
    | some b => bankId b
    | none => "nubank"

/-- The detector agrees with its claim-shaped description. -/
theorem detect_eq_spec (text : String) : detect_bank_format text = detectSpec text := by
  unfold detect_bank_format detectSpec
  simp only [literalTable, List.find?_cons, List.any_cons, List.any_nil, Bool.or_false]
  by_cases h1 : (pyIn "nubank" (strLower text) || pyIn "nu pagamentos" (strLower text)) = true
  · simp [h1]
  · simp only [Bool.not_eq_true] at h1
    simp only [h1, if_false]
    by_cases h2 : (pyIn "itau" (strLower text) || pyIn "itaú" (strLower text)) = true
    · simp [h2]
    · simp only [Bool.not_eq_true] at h2
      simp only [h2, if_false]
      by_cases h3 : pyIn "bradesco" (strLower text) = true
      · simp [h3]
      · simp only [Bool.not_eq_true] at h3
        simp only [h3, if_false]
        by_cases h4 : pyIn "santander" (strLower text) = true
        · simp [h4]
        · simp only [Bool.not_eq_true] at h4
          simp only [h4, if_false]
          by_cases h5 : (pyIn "btg" (strLower text) || pyIn "btg pactual" (strLower text)) = true
          · simp [h5]
          · simp only [Bool.not_eq_true] at h5
            simp only [h5, if_false]
            by_cases h6 : pyIn "unicred" (strLower text) = true
            · simp [h6]
            · simp only [Bool.not_eq_true] at h6
              simp only [h6, if_false]
              by_cases h7 : (pyIn "c6" (strLower text) || (pyIn "c6 bank" (strLower text) ||
                  (pyIn "banco c6" (strLower text) || pyIn "c6 carbon" (strLower text)))) = true
              · simp only [← Bool.or_assoc] at h7 ⊢
                simp [h7]
              · simp only [Bool.not_eq_true] at h7
                simp only [← Bool.or_assoc] at h7 ⊢
                simp only [h7, if_false]
                by_cases h8 : (pyIn "caixa" (strLower text) || pyIn "cef" (strLower text)) = true
                · simp [h8]
                · simp only [Bool.not_eq_true] at h8
                  simp [h8]

/-- C5: `detect_bank_format` is total and always returns a registry id: the
    first source whose name literal occurs case-insensitively in the text,
    in the fixed check order; otherwise the first grammar in registry order
    whose transaction pattern finds a match (IGNORECASE, MULTILINE);
    otherwise the configured default `'nubank'`. -/
theorem c5_detect_total_and_first_match :
    ∀ text : String,
      detect_bank_format text = detectSpec text ∧
      detect_bank_format text ∈ registry.map bankId := by
  intro text
  refine ⟨detect_eq_spec text, ?_⟩
  rw [detect_eq_spec text]
  unfold detectSpec
  have htab : ∀ p ∈ literalTable, p.1 ∈ registry.map bankId := by decide
  cases hf : literalTable.find? fun p => p.2.any fun l => pyIn l (strLower text) with
  | some p => exact htab p (List.mem_of_find?_eq_some hf)
  | none =>
    cases hr : registry.find? fun b => (pySearch true (grammar b).transaction text).isSome with
    | some b =>
      exact List.mem_map_of_mem bankId (List.mem_of_find?_eq_some hr)
    | none => decide

/-! ## Claim C3: the transaction fingerprint -/

/-- Each word of the MD5 state after a block is reduced mod `2^32`. -/
theorem md5Block_bounds (st : ℕ × ℕ × ℕ × ℕ) (bl : List ℕ) :
    (md5Block st bl).1 < 2 ^ 32 ∧ (md5Block st bl).2.1 < 2 ^ 32 ∧
    (md5Block st bl).2.2.1 < 2 ^ 32 ∧ (md5Block st bl).2.2.2 < 2 ^ 32 := by
  unfold md5Block
  refine ⟨?_, ?_, ?_, ?_⟩ <;> exact Nat.mod_lt _ (by norm_num)

/-- The final MD5 state words are below `2^32`. -/
theorem md5Words_bounds (msg : List ℕ) :
    (md5Words msg).1 < 2 ^ 32 ∧ (md5Words msg).2.1 < 2 ^ 32 ∧
    (md5Words msg).2.2.1 < 2 ^ 32 ∧ (md5Words msg).2.2.2 < 2 ^ 32 := by
  have key : ∀ (bls : List (List ℕ)) (st : ℕ × ℕ × ℕ × ℕ),
      st.1 < 2 ^ 32 → st.2.1 < 2 ^ 32 → st.2.2.1 < 2 ^ 32 → st.2.2.2 < 2 ^ 32 →
      (bls.foldl md5Block st).1 < 2 ^ 32 ∧ (bls.foldl md5Block st).2.1 < 2 ^ 32 ∧
      (bls.foldl md5Block st).2.2.1 < 2 ^ 32 ∧ (bls.foldl md5Block st).2.2.2 < 2 ^ 32 := by
    intro bls
    induction bls with
    | nil => intro st h1 h2 h3 h4; exact ⟨h1, h2, h3, h4⟩
    | cons b bs ih =>
      intro st _ _ _ _
      simp only [List.foldl_cons]
      obtain ⟨g1, g2, g3, g4⟩ := md5Block_bounds st b
      exact ih _ g1 g2 g3 g4
  exact key _ md5Init (by decide) (by decide) (by decide) (by decide)

/-- Unfolding of the packed digest value. -/
theorem md5Val_def (msg : List ℕ) :
    md5Val msg = (md5Words msg).1 + 2 ^ 32 * (md5Words msg).2.1 +
      2 ^ 64 * (md5Words msg).2.2.1 + 2 ^ 96 * (md5Words msg).2.2.2 :=
  rfl

/-- The packed digest value is a 128-bit number. -/
theorem md5Val_lt (msg : List ℕ) : md5Val msg < 2 ^ 128 := by
  obtain ⟨h1, h2, h3, h4⟩ := md5Words_bounds msg
  rw [md5Val_def]
  have e32 : (2 : ℕ) ^ 32 = 4294967296 := by norm_num
  have e64 : (2 : ℕ) ^ 64 = 18446744073709551616 := by norm_num
  have e96 : (2 : ℕ) ^ 96 = 79228162514264337593543950336 := by norm_num
  have e128 : (2 : ℕ) ^ 128 = 340282366920938463463374607431768211456 := by norm_num
  rw [e32] at h1 h2 h3 h4
  rw [e32, e64, e96, e128]
  omega

/-- Equal packed digests come from equal digest states. -/
theorem md5Words_eq_of_val_eq {m1 m2 : List ℕ} (h : md5Val m1 = md5Val m2) :
    md5Words m1 = md5Words m2 := by
  obtain ⟨a1, b1, c1, d1⟩ := md5Words_bounds m1
  obtain ⟨a2, b2, c2, d2⟩ := md5Words_bounds m2
  rw [md5Val_def, md5Val_def] at h
  have e32 : (2 : ℕ) ^ 32 = 4294967296 := by norm_num
  have e64 : (2 : ℕ) ^ 64 = 18446744073709551616 := by norm_num
  have e96 : (2 : ℕ) ^ 96 = 79228162514264337593543950336 := by norm_num
  rw [e32] at a1 b1 c1 d1 a2 b2 c2 d2
  rw [e32, e64, e96] at h
  have h1 : (md5Words m1).1 = (md5Words m2).1 := by omega
  have h2 : (md5Words m1).2.1 = (md5Words m2).2.1 := by omega
  have h3 : (md5Words m1).2.2.1 = (md5Words m2).2.2.1 := by omega
  have h4 : (md5Words m1).2.2.2 = (md5Words m2).2.2.2 := by omega
  exact Prod.ext h1 (Prod.ext h2 (Prod.ext h3 h4))

/-- Equal packed digests give equal hex digests. -/
theorem gth_eq_of_val_eq {t1 t2 : TxKey}
    (h : md5Val (strUtf8 (canonicalKey t1)) = md5Val (strUtf8 (canonicalKey t2))) :
    generate_transaction_hash t1 = generate_transaction_hash t2 := by
  unfold generate_transaction_hash md5Hex md5Bytes
  rw [md5Words_eq_of_val_eq h]

/-- The canonical key as a flat character list. -/
theorem canonicalKey_data (t : TxKey) :
    (canonicalKey t).data =
      t.data.data ++ ('|' :: (t.descricao.data ++ ('|' :: (t.valor.data ++
        ('|' :: (t.banco.data ++ ('|' :: t.origem_cartao.data))))))) := by
  simp [canonicalKey, String.intercalate, String.intercalate.go]

/-- First-component cancellation for list concatenation. -/
theorem append_inj_left {x y s t : List Char} (h : x ++ s = y ++ t)
    (hst : s.length = t.length) : x = y :=
  (List.append_inj' h hst).1

/-- C3 (amended): the fingerprint is a pure function of the five fields —
    identical `(data, descricao, valor, banco, origem_cartao)` always yield
    the identical digest — and changing any single one of the five fields
    always changes the delimiter-joined canonical key over which the MD5
    digest is computed (the digest itself cannot always change, because the
    digest space is finite; see the counterexample). -/
theorem c3_fingerprint_key :
    ∀ t1 t2 : TxKey,
      (t1 = t2 → generate_transaction_hash t1 = generate_transaction_hash t2) ∧
      (((t1.data ≠ t2.data ∧ t1.descricao = t2.descricao ∧ t1.valor = t2.valor ∧
          t1.banco = t2.banco ∧ t1.origem_cartao = t2.origem_cartao) ∨
        (t1.data = t2.data ∧ t1.descricao ≠ t2.descricao ∧ t1.valor = t2.valor ∧
          t1.banco = t2.banco ∧ t1.origem_cartao = t2.origem_cartao) ∨
        (t1.data = t2.data ∧ t1.descricao = t2.descricao ∧ t1.valor ≠ t2.valor ∧
          t1.banco = t2.banco ∧ t1.origem_cartao = t2.origem_cartao) ∨
        (t1.data = t2.data ∧ t1.descricao = t2.descricao ∧ t1.valor = t2.valor ∧
          t1.banco ≠ t2.banco ∧ t1.origem_cartao = t2.origem_cartao) ∨
        (t1.data = t2.data ∧ t1.descricao = t2.descricao ∧ t1.valor = t2.valor ∧
          t1.banco = t2.banco ∧ t1.origem_cartao ≠ t2.origem_cartao)) →
       canonicalKey t1 ≠ canonicalKey t2) := by
  rintro ⟨d1, e1, v1, b1, o1⟩ ⟨d2, e2, v2, b2, o2⟩
  refine ⟨fun h => by rw [h], ?_⟩
  rintro (⟨hne, h2, h3, h4, h5⟩ | ⟨h1, hne, h3, h4, h5⟩ | ⟨h1, h2, hne, h4, h5⟩ |
      ⟨h1, h2, h3, hne, h5⟩ | ⟨h1, h2, h3, h4, hne⟩) hkey <;>
    simp only at * <;>
    subst_vars <;>
    apply hne <;>
    have hd := congrArg String.data hkey <;>
    rw [canonicalKey_data, canonicalKey_data] at hd <;>
    simp only at hd
  · exact congrArg String.mk (append_inj_left hd (by simp))
  · have := List.append_cancel_left hd
    simp only [List.cons.injEq, true_and] at this
    exact congrArg String.mk (append_inj_left this (by simp))
  · have h' := List.append_cancel_left hd
    simp only [List.cons.injEq, true_and] at h'
    have h'' := List.append_cancel_left h'
    simp only [List.cons.injEq, true_and] at h''
    exact congrArg String.mk (append_inj_left h'' (by simp))
  · have h' := List.append_cancel_left hd
    simp only [List.cons.injEq, true_and] at h'
    have h'' := List.append_cancel_left h'
    simp only [List.cons.injEq, true_and] at h''
    have h3' := List.append_cancel_left h''
    simp only [List.cons.injEq, true_and] at h3'
    exact congrArg String.mk (append_inj_left h3' (by simp))
  · have h' := List.append_cancel_left hd
    simp only [List.cons.injEq, true_and] at h'
    have h'' := List.append_cancel_left h'
    simp only [List.cons.injEq, true_and] at h''
    have h3' := List.append_cancel_left h''
    simp only [List.cons.injEq, true_and] at h3'
    have h4' := List.append_cancel_left h3'
    simp only [List.cons.injEq, true_and] at h4'
    exact congrArg String.mk h4'

/-- C3 witness: a concrete equal pair gets equal digests, and a concrete
    single-field change (the description) changes the canonical key. -/
theorem c3_witness :
    generate_transaction_hash ⟨"01/01/2025", "X", "1.0", "nubank", "c"⟩ =
      generate_transaction_hash ⟨"01/01/2025", "X", "1.0", "nubank", "c"⟩ ∧
    canonicalKey ⟨"01/01/2025", "X", "1.0", "nubank", "c"⟩ ≠
      canonicalKey ⟨"01/01/2025", "Y", "1.0", "nubank", "c"⟩ :=
  ⟨(c3_fingerprint_key _ _).1 rfl,
   (c3_fingerprint_key _ _).2 (Or.inr (Or.inl ⟨rfl, by decide, rfl, rfl, rfl⟩))⟩

/-- C3 counterexample: it is not true that changing a single field always
    changes the digest — infinitely many descriptions map into the finite
    128-bit digest space, so some two single-field variants collide. -/
theorem c3_counterexample :
    ¬ (∀ t1 t2 : TxKey,
        t1.data = t2.data → t1.valor = t2.valor → t1.banco = t2.banco →
        t1.origem_cartao = t2.origem_cartao → t1.descricao ≠ t2.descricao →
        generate_transaction_hash t1 ≠ generate_transaction_hash t2) := by
  intro H
  have hinj : Function.Injective (fun i : Fin (2 ^ 128 + 1) =>
      (⟨md5Val (strUtf8 (canonicalKey ⟨"d", ⟨List.replicate i.1 'a'⟩, "v", "b", "o"⟩)),
        md5Val_lt _⟩ : Fin (2 ^ 128))) := by
    intro i j hij
    by_contra hne
    have hd : (⟨List.replicate i.1 'a'⟩ : String) ≠ ⟨List.replicate j.1 'a'⟩ := by
      intro he
      apply hne
      have hlen := congrArg (fun s : String => s.data.length) he
      simp only [List.length_replicate] at hlen
      exact Fin.ext hlen
    exact H ⟨"d", ⟨List.replicate i.1 'a'⟩, "v", "b", "o"⟩
      ⟨"d", ⟨List.replicate j.1 'a'⟩, "v", "b", "o"⟩ rfl rfl rfl rfl hd
      (gth_eq_of_val_eq (by simpa using congrArg Fin.val hij))
  have hcard := Fintype.card_le_of_injective _ hinj
  rw [Fintype.card_fin, Fintype.card_fin] at hcard
  exact Nat.not_succ_le_self _ hcard

/-! ## Claim C10: learned patterns are keyed by (description, category) -/

/-- `find_one` over an extended collection still returns the document the
    unextended collection returned. -/
theorem find?_append_of_some {p : CatPattern → Bool} {l1 l2 : List CatPattern} {x : CatPattern}
    (h : l1.find? p = some x) : (l1 ++ l2).find? p = some x := by
  rw [List.find?_append, h]
  rfl

/-- C10: recording a correction whose `(normalizedDescription, category)`
    pair is not yet stored appends a fresh pattern with `usage_count = 1`
    and leaves every existing pattern — in particular one with the same
    normalized description and a different category — entirely unchanged;
    and since the exact lookup of `find_matching_category` matches on the
    normalized description alone, a later exact query still returns the
    first stored pattern's (old) category. -/
theorem c10_pattern_keying :
    ∀ (store : List CatPattern) (descricao cat2 : String) (now : ℕ)
      (banco origem : Option String),
      findOneNdCat store (_normalize_description descricao) cat2 = none →
      save_categorization_pattern now store descricao cat2 banco origem =
        store ++ [{ original_desc := descricao,
                    normalized_desc := _normalize_description descricao,
                    categoria := cat2, banco := banco, origem_cartao := origem,
                    usage_count := 1, created_at := now, last_used := now,
                    confidence_score := 1 }] ∧
      (∀ p, findOneNd store (_normalize_description descricao) = some p →
        find_matching_category (save_categorization_pattern now store descricao cat2 banco origem)
          descricao = ⟨true, some p.categoria, Rat.divInt 95 100, some p, some "exact"⟩) := by
  intro store descricao cat2 now banco origem hnone
  have hsave : save_categorization_pattern now store descricao cat2 banco origem =
      store ++ [{ original_desc := descricao,
                  normalized_desc := _normalize_description descricao,
                  categoria := cat2, banco := banco, origem_cartao := origem,
                  usage_count := 1, created_at := now, last_used := now,
                  confidence_score := 1 }] := by
    simp only [save_categorization_pattern]
    rw [hnone]
  refine ⟨hsave, fun p hp => ?_⟩
  rw [hsave]
  simp only [find_matching_category]
  rw [show findOneNd (store ++ [_]) (_normalize_description descricao) = some p from
    find?_append_of_some hp]

/-! ## Claims C4 and C2: currency parsing

    The general statements quantify over digit sequences: `dchar d` is the
    ASCII digit character of `d < 10`, `decChars` renders a digit list and
    `decVal` is its decimal value. -/

/-- The ASCII character of a decimal digit. -/
def dchar (d : ℕ) : Char :=
  Char.ofNat (48 + d)

/-- The characters of a digit sequence. -/
def decChars (ds : List ℕ) : List Char :=
  ds.map dchar

/-- The decimal value of a digit sequence. -/
def decVal (ds : List ℕ) : ℕ :=
  ds.foldl (fun a d => a * 10 + d) 0

/-- Digit groups joined by `'.'` thousands separators (the shape of the
    Brazilian-format integer part). -/
def joinDots : List (List ℕ) → List Char
  | [] => []
  | [g] => decChars g
  | g :: g2 :: gs => decChars g ++ '.' :: joinDots (g2 :: gs)

/-- Every predicate of interest about a digit character, in one bundle. -/
theorem dchar_facts {d : ℕ} (h : d < 10) :
    isPyDigit (dchar d) = true ∧ (!(dchar d == 'R' || dchar d == '$' || isPySpace (dchar d))) = true ∧
    (dchar d == ',') = false ∧ (dchar d == '.') = false ∧
    dchar d ≠ '+' ∧ dchar d ≠ '-' ∧ digitVal (dchar d) = d := by
  interval_cases d <;> exact ⟨by decide, by decide, by decide, by decide, by decide, by decide, rfl⟩

/-- Consuming an all-digit prefix followed by a non-digit (or nothing). -/
theorem consumeDigits_all (l : List Char) (hl : ∀ c ∈ l, isPyDigit c = true) :
    ∀ (acc n : ℕ) (rest : List Char), (∀ c, rest.head? = some c → isPyDigit c = false) →
      consumeDigits acc n (l ++ rest) =
        (l.foldl (fun a c => a * 10 + digitVal c) acc, n + l.length, rest) := by
  induction l with
  | nil =>
    intro acc n rest hrest
    cases rest with
    | nil => rfl
    | cons c cs => simp [consumeDigits, hrest c rfl]
  | cons c cs ih =>
    intro acc n rest hrest
    have hc := hl c (by simp)
    simp only [List.cons_append, consumeDigits, hc, if_true, List.append_eq]
    rw [ih (fun x hx => hl x (List.mem_cons_of_mem _ hx)) _ _ _ hrest]
    simp only [List.foldl_cons, List.length_cons]
    have harith : n + 1 + cs.length = n + (cs.length + 1) := by omega
    rw [harith]

/-- `pySignSplit` is the identity when the head is not a sign. -/
theorem pySignSplit_nosign {l : List Char}
    (h : ∀ c, l.head? = some c → (c ≠ '+' ∧ c ≠ '-')) : pySignSplit l = (false, l) := by
  cases l with
  | nil => rfl
  | cons c cs =>
    obtain ⟨h1, h2⟩ := h c rfl
    simp [pySignSplit, h1, h2]

/-- `allDigits l`: every character of `l` is an ASCII digit. -/
def allDigits (l : List Char) : Prop :=
  ∀ c ∈ l, isPyDigit c = true

/-- The digit-characters value as consumed by the float parser. -/
def charsVal (l : List Char) : ℕ :=
  l.foldl (fun a c => a * 10 + digitVal c) 0

/-- `charsVal` of rendered digits is the decimal value (for any
    accumulator). -/
theorem foldl_decChars (ds : List ℕ) (h : ∀ d ∈ ds, d < 10) :
    ∀ acc : ℕ, (decChars ds).foldl (fun a c => a * 10 + digitVal c) acc =
      ds.foldl (fun a d => a * 10 + d) acc := by
  induction ds with
  | nil => intro acc; rfl
  | cons d ds ih =>
    intro acc
    have hd := (dchar_facts (h d (by simp))).2.2.2.2.2.2
    simp only [decChars, List.map_cons, List.foldl_cons, hd]
    exact ih (fun x hx => h x (List.mem_cons_of_mem _ hx)) _

/-- Python `float()` on `⟨integer digits⟩.⟨fraction digits⟩`. -/
theorem pyFloat?_decimal (ip fp : List Char) (hip : allDigits ip) (hfp : allDigits fp)
    (hne : ip ≠ [] ∨ fp ≠ []) :
    pyFloat? (ip ++ '.' :: fp) =
      some ((charsVal ip : ℚ) + (charsVal fp : ℚ) / 10 ^ fp.length) := by
  have hdigit_nosign : ∀ c, (ip ++ '.' :: fp).head? = some c → (c ≠ '+' ∧ c ≠ '-') := by
    intro c hc
    cases ip with
    | nil =>
      simp at hc
      subst hc
      exact ⟨by decide, by decide⟩
    | cons a l =>
      simp at hc
      subst hc
      have := hip a (by simp)
      revert this
      intro hd
      constructor <;> intro he <;> subst he <;> simp [isPyDigit] at hd
  have hcons := consumeDigits_all ip hip 0 0 ('.' :: fp) (by intro c hc; simp at hc; subst hc; decide)
  have hcons2 := consumeDigits_all fp hfp 0 0 [] (by intro c hc; simp at hc)
  simp only [pyFloat?]
  rw [pySignSplit_nosign hdigit_nosign]
  simp only
  rw [hcons]
  simp only
  rw [List.append_nil] at hcons2
  rw [hcons2]
  simp only
  have hlen : ¬ (0 + ip.length + (0 + fp.length) = 0) := by
    rcases hne with h | h
    · have := List.length_pos.mpr h
      omega
    · have := List.length_pos.mpr h
      omega
  rw [if_neg (by simpa using hlen)]
  simp only [qmul_eq, qadd_eq, qdiv_eq, charsVal]
  push_cast
  ring_nf
  norm_num [Nat.zero_add]

/-- The characters of `decChars ds ++ ',' :: decChars fs` survive the
    currency-symbol stripping. -/
theorem currency_filter_keeps (ds fs : List ℕ) (hds : ∀ d ∈ ds, d < 10)
    (hfs : ∀ d ∈ fs, d < 10) :
    (decChars ds ++ ',' :: decChars fs).filter
      (fun c => !(c == 'R' || c == '$' || isPySpace c)) =
      decChars ds ++ ',' :: decChars fs := by
  apply List.filter_eq_self.mpr
  intro c hc
  rcases List.mem_append.mp hc with h | h
  · obtain ⟨d, hd, rfl⟩ := List.mem_map.mp h
    exact (dchar_facts (hds d hd)).2.1
  · rcases List.mem_cons.mp h with rfl | h
    · decide
    · obtain ⟨d, hd, rfl⟩ := List.mem_map.mp h
      exact (dchar_facts (hfs d hd)).2.1

/-- The comma-decimal family: with a comma and no dots, the comma is the
    decimal separator. -/
theorem parse_currency_comma (ds fs : List ℕ) (hds : ∀ d ∈ ds, d < 10)
    (hfs : ∀ d ∈ fs, d < 10) (hne : ds ≠ [] ∨ fs ≠ []) :
    parse_currency ⟨decChars ds ++ ',' :: decChars fs⟩ =
      (decVal ds : ℚ) + (decVal fs : ℚ) / 10 ^ fs.length := by
  have hnempty : (⟨decChars ds ++ ',' :: decChars fs⟩ : String) ≠ "" := by
    intro h
    have := congrArg String.data h
    simp at this
  rw [parse_currency, if_neg hnempty]
  simp only
  rw [currency_filter_keeps ds fs hds hfs]
  have hcomma : (decChars ds ++ ',' :: decChars fs).contains ',' = true := by
    simp [List.contains_eq_any_beq, List.any_append]
  have hdot : (decChars ds ++ ',' :: decChars fs).contains '.' = false := by
    simp only [List.contains_eq_any_beq, List.any_append, List.any_cons, Bool.or_eq_false_iff]
    refine ⟨?_, by decide, ?_⟩ <;>
      · rw [List.any_eq_false]
        intro c hc
        obtain ⟨d, hd, rfl⟩ := List.mem_map.mp hc
        have h4 := (dchar_facts (by first | exact hds d hd | exact hfs d hd)).2.2.2.1
        simp only [beq_eq_false_iff_ne] at h4
        simp [beq_eq_false_iff_ne.mpr (Ne.symm h4)]
  rw [hcomma, hdot]
  simp only [Bool.true_and, Bool.not_false, if_true]
  have hkeep : ∀ (l : List ℕ), (∀ d ∈ l, d < 10) →
      (decChars l).map (fun c => if c == ',' then '.' else c) = decChars l := by
    intro l hl
    induction l with
    | nil => rfl
    | cons d t ih =>
      have hd := (dchar_facts (hl d (by simp))).2.2.1
      simp only [decChars, List.map_cons, hd, Bool.false_eq_true, if_false]
      have := ih (fun x hx => hl x (List.mem_cons_of_mem _ hx))
      simp only [decChars] at this
      rw [this]
  have hmap : (decChars ds ++ ',' :: decChars fs).map (fun c => if c == ',' then '.' else c) =
      decChars ds ++ '.' :: decChars fs := by
    rw [List.map_append, List.map_cons, hkeep ds hds, hkeep fs hfs]
    norm_num
  rw [hmap]
  have hdig : ∀ (l : List ℕ), (∀ d ∈ l, d < 10) → allDigits (decChars l) := by
    intro l hl c hc
    obtain ⟨d, hd, rfl⟩ := List.mem_map.mp hc
    exact (dchar_facts (hl d hd)).1
  have hne' : decChars ds ≠ [] ∨ decChars fs ≠ [] := by
    rcases hne with h | h
    · exact Or.inl (by simpa [decChars] using h)
    · exact Or.inr (by simpa [decChars] using h)
  rw [pyFloat?_decimal _ _ (hdig ds hds) (hdig fs hfs) hne']
  rw [show charsVal (decChars ds) = decVal ds from foldl_decChars ds hds 0]
  rw [show charsVal (decChars fs) = decVal fs from foldl_decChars fs hfs 0]
  simp [decChars]

/-- A comma-free character list is untouched by the comma-to-dot map. -/
theorem map_comma_id (l : List Char) (h : ∀ c ∈ l, (c == ',') = false) :
    l.map (fun c => if c == ',' then '.' else c) = l := by
  induction l with
  | nil => rfl
  | cons c t ih =>
    have hc := h c (by simp)
    simp only [List.map_cons, hc, Bool.false_eq_true, if_false]
    rw [ih fun x hx => h x (List.mem_cons_of_mem _ hx)]

/-- Characters produced by `joinDots` are digit characters or dots. -/
theorem joinDots_chars : ∀ (gs : List (List ℕ)), (∀ g ∈ gs, ∀ d ∈ g, d < 10) →
    ∀ c ∈ joinDots gs, (∃ d, d < 10 ∧ c = dchar d) ∨ c = '.'
  | [], _, c, hc => by simp [joinDots] at hc
  | [g], h, c, hc => by
    simp only [joinDots] at hc
    obtain ⟨d, hd, rfl⟩ := List.mem_map.mp hc
    exact Or.inl ⟨d, h g (by simp) d hd, rfl⟩
  | g :: g2 :: gs, h, c, hc => by
    simp only [joinDots] at hc
    rcases List.mem_append.mp hc with h1 | h1
    · obtain ⟨d, hd, rfl⟩ := List.mem_map.mp h1
      exact Or.inl ⟨d, h g (by simp) d hd, rfl⟩
    · rcases List.mem_cons.mp h1 with rfl | h1
      · exact Or.inr rfl
      · exact joinDots_chars (g2 :: gs) (fun x hx => h x (List.mem_cons_of_mem _ hx)) c h1

/-- Dropping the dots of `joinDots` leaves the concatenated digit groups. -/
theorem joinDots_filter : ∀ (gs : List (List ℕ)), (∀ g ∈ gs, ∀ d ∈ g, d < 10) →
    (joinDots gs).filter (fun c => !(c == '.')) = decChars gs.flatten
  | [], _ => rfl
  | [g], h => by
    simp only [joinDots]
    rw [List.filter_eq_self.mpr]
    · simp [decChars]
    · intro c hc
      obtain ⟨d, hd, rfl⟩ := List.mem_map.mp hc
      have hne := (dchar_facts (h g (by simp) d hd)).2.2.2.1
      simp [hne]
  | g :: g2 :: gs, h => by
    have ih := joinDots_filter (g2 :: gs) (fun x hx => h x (List.mem_cons_of_mem _ hx))
    simp only [joinDots, List.filter_append, List.filter_cons]
    rw [List.filter_eq_self.mpr]
    · simp only [show (('.' : Char) == '.') = true from rfl, Bool.not_true, ih]
      simp [decChars, List.flatten_cons]
    · intro c hc
      obtain ⟨d, hd, rfl⟩ := List.mem_map.mp hc
      have hne := (dchar_facts (h g (by simp) d hd)).2.2.2.1
      simp [hne]

/-- The Brazilian-format family: dots group the integer digits and the
    comma is the decimal separator; the dots are dropped. -/
theorem parse_currency_dots (g1 g2 : List ℕ) (gs : List (List ℕ)) (fs : List ℕ)
    (hgs : ∀ g ∈ g1 :: g2 :: gs, ∀ d ∈ g, d < 10) (hfs : ∀ d ∈ fs, d < 10)
    (hne : (g1 :: g2 :: gs).flatten ≠ [] ∨ fs ≠ []) :
    parse_currency ⟨joinDots (g1 :: g2 :: gs) ++ ',' :: decChars fs⟩ =
      (decVal (g1 :: g2 :: gs).flatten : ℚ) + (decVal fs : ℚ) / 10 ^ fs.length := by
  have hjchars := joinDots_chars (g1 :: g2 :: gs) hgs
  have hnempty : (⟨joinDots (g1 :: g2 :: gs) ++ ',' :: decChars fs⟩ : String) ≠ "" := by
    intro h
    have := congrArg String.data h
    simp at this
  rw [parse_currency, if_neg hnempty]
  simp only
  have hfilter : (joinDots (g1 :: g2 :: gs) ++ ',' :: decChars fs).filter
      (fun c => !(c == 'R' || c == '$' || isPySpace c)) =
      joinDots (g1 :: g2 :: gs) ++ ',' :: decChars fs := by
    apply List.filter_eq_self.mpr
    intro c hc
    rcases List.mem_append.mp hc with h1 | h1
    · rcases hjchars c h1 with ⟨d, hd, rfl⟩ | rfl
      · exact (dchar_facts hd).2.1
      · decide
    · rcases List.mem_cons.mp h1 with rfl | h1
      · decide
      · obtain ⟨d, hd, rfl⟩ := List.mem_map.mp h1
        exact (dchar_facts (hfs d hd)).2.1
  rw [hfilter]
  have hcomma : (joinDots (g1 :: g2 :: gs) ++ ',' :: decChars fs).contains ',' = true := by
    simp [List.contains_eq_any_beq, List.any_append]
  have hdot : (joinDots (g1 :: g2 :: gs) ++ ',' :: decChars fs).contains '.' = true := by
    simp only [joinDots, List.contains_eq_any_beq, List.any_append, List.any_cons]
    simp
  rw [hcomma, hdot]
  simp only [Bool.not_true, Bool.and_false, Bool.false_eq_true, if_false, Bool.and_true,
    Bool.true_and, if_true]
  have hfil2 : (joinDots (g1 :: g2 :: gs) ++ ',' :: decChars fs).filter
      (fun c => !(c == '.')) =
      decChars (g1 :: g2 :: gs).flatten ++ ',' :: decChars fs := by
    rw [List.filter_append, joinDots_filter (g1 :: g2 :: gs) hgs, List.filter_cons]
    simp only [show ((',' : Char) == '.') = false from rfl, Bool.not_false, if_true]
    rw [List.filter_eq_self.mpr]
    intro c hc
    obtain ⟨d, hd, rfl⟩ := List.mem_map.mp hc
    have hne2 := (dchar_facts (hfs d hd)).2.2.2.1
    simp [hne2]
  rw [hfil2]
  have hmap : (decChars (g1 :: g2 :: gs).flatten ++ ',' :: decChars fs).map
      (fun c => if c == ',' then '.' else c) =
      decChars (g1 :: g2 :: gs).flatten ++ '.' :: decChars fs := by
    rw [List.map_append, List.map_cons]
    have hflat : ∀ d ∈ (g1 :: g2 :: gs).flatten, d < 10 := by
      intro d hd
      obtain ⟨g, hg, hdg⟩ := List.mem_flatten.mp hd
      exact hgs g hg d hdg
    rw [map_comma_id _ (by
      intro c hc
      obtain ⟨d, hd, rfl⟩ := List.mem_map.mp hc
      exact (dchar_facts (hflat d hd)).2.2.1)]
    rw [map_comma_id _ (by
      intro c hc
      obtain ⟨d, hd, rfl⟩ := List.mem_map.mp hc
      exact (dchar_facts (hfs d hd)).2.2.1)]
    norm_num
  rw [hmap]
  have hflat : ∀ d ∈ (g1 :: g2 :: gs).flatten, d < 10 := by
    intro d hd
    obtain ⟨g, hg, hdg⟩ := List.mem_flatten.mp hd
    exact hgs g hg d hdg
  have hdig : ∀ (l : List ℕ), (∀ d ∈ l, d < 10) → allDigits (decChars l) := by
    intro l hl c hc
    obtain ⟨d, hd, rfl⟩ := List.mem_map.mp hc
    exact (dchar_facts (hl d hd)).1
  have hne' : decChars (g1 :: g2 :: gs).flatten ≠ [] ∨ decChars fs ≠ [] := by
    rcases hne with h | h
    · exact Or.inl (by simpa [decChars] using h)
    · exact Or.inr (by simpa [decChars] using h)
  rw [pyFloat?_decimal _ _ (hdig _ hflat) (hdig fs hfs) hne']
  rw [show charsVal (decChars (g1 :: g2 :: gs).flatten) = decVal (g1 :: g2 :: gs).flatten from
    foldl_decChars _ hflat 0]
  rw [show charsVal (decChars fs) = decVal fs from foldl_decChars fs hfs 0]
  simp [decChars]

/-- C4: `parse_currency` strips currency symbols and whitespace; a comma
    with no dot is the decimal separator; with both, dots are thousands
    separators and the comma is the decimal separator; `"R$ 1.234,56"`
    parses to `1234.56` and `"45,80"` to `45.80`; empty or non-numeric
    input parses to `0.0` (the function is total — it never raises). -/
theorem c4_parse_currency_spec :
    (∀ ds fs : List ℕ, (∀ d ∈ ds, d < 10) → (∀ d ∈ fs, d < 10) → (ds ≠ [] ∨ fs ≠ []) →
       parse_currency ⟨decChars ds ++ ',' :: decChars fs⟩ =
         (decVal ds : ℚ) + (decVal fs : ℚ) / 10 ^ fs.length) ∧
    (∀ (g1 g2 : List ℕ) (gs : List (List ℕ)) (fs : List ℕ),
       (∀ g ∈ g1 :: g2 :: gs, ∀ d ∈ g, d < 10) → (∀ d ∈ fs, d < 10) →
       ((g1 :: g2 :: gs).flatten ≠ [] ∨ fs ≠ []) →
       parse_currency ⟨joinDots (g1 :: g2 :: gs) ++ ',' :: decChars fs⟩ =
         (decVal (g1 :: g2 :: gs).flatten : ℚ) + (decVal fs : ℚ) / 10 ^ fs.length) ∧
    parse_currency "R$ 1.234,56" = 123456 / 100 ∧
    parse_currency "45,80" = 4580 / 100 ∧
    parse_currency "" = 0 ∧
    parse_currency "abc" = 0 := by
  refine ⟨parse_currency_comma, parse_currency_dots, ?_, ?_, by decide, by decide⟩
  · rw [show parse_currency "R$ 1.234,56" = Rat.divInt 123456 100 from by decide,
      Rat.divInt_eq_div]
    norm_num
  · rw [show parse_currency "45,80" = Rat.divInt 4580 100 from by decide, Rat.divInt_eq_div]
    norm_num

/-- C4 witness: the comma family at `45,80` and the dots family at
    `1.234,56`. -/
theorem c4_witness :
    ((∀ d ∈ [4, 5], d < 10) ∧ (∀ d ∈ [8, 0], d < 10) ∧ (([4, 5] : List ℕ) ≠ [] ∨ ([8, 0] : List ℕ) ≠ []) ∧
      parse_currency ⟨decChars [4, 5] ++ ',' :: decChars [8, 0]⟩ =
        (decVal [4, 5] : ℚ) + (decVal [8, 0] : ℚ) / 10 ^ ([8, 0] : List ℕ).length) ∧
    parse_currency ⟨joinDots [[1], [2, 3, 4]] ++ ',' :: decChars [5, 6]⟩ =
      (decVal ([[1], [2, 3, 4]] : List (List ℕ)).flatten : ℚ) +
        (decVal [5, 6] : ℚ) / 10 ^ ([5, 6] : List ℕ).length :=
  ⟨⟨by decide, by decide, by decide,
    c4_parse_currency_spec.1 [4, 5] [8, 0] (by decide) (by decide) (by decide)⟩,
   c4_parse_currency_spec.2.1 [1] [2, 3, 4] [] [5, 6] (by decide) (by decide) (by decide)⟩

/-- C2 counterexample: `parse_currency` applies no 2-decimal rounding —
    `"1,234"` parses to `1.234`, which is not an integer number of
    hundredths. -/
theorem c2_counterexample : ¬ ∃ n : ℤ, parse_currency "1,234" = (n : ℚ) / 100 := by
  rintro ⟨n, hn⟩
  rw [show parse_currency "1,234" = Rat.divInt 1234 1000 from by decide, Rat.divInt_eq_div] at hn
  push_cast at hn
  rw [div_eq_div_iff (by norm_num) (by norm_num)] at hn
  have h2 : (1234 * 100 : ℤ) = n * 1000 := by exact_mod_cast hn
  omega

/-- C2 (amended): `parse_currency` performs no rounding — it returns the
    exactly parsed decimal value, so the result has at most two fraction
    digits precisely when the parsed decimal part does; in particular every
    comma-decimal input with at most two fraction digits yields an integer
    number of hundredths. -/
theorem c2_two_decimals_when_input_has_two :
    ∀ ds fs : List ℕ, (∀ d ∈ ds, d < 10) → (∀ d ∈ fs, d < 10) → ds ≠ [] → fs.length ≤ 2 →
      ∃ n : ℤ, parse_currency ⟨decChars ds ++ ',' :: decChars fs⟩ = (n : ℚ) / 100 := by
  intro ds fs hds hfs hne hlen
  rw [parse_currency_comma ds fs hds hfs (Or.inl hne)]
  refine ⟨decVal ds * 100 + decVal fs * 10 ^ (2 - fs.length), ?_⟩
  have h3 : fs.length = 0 ∨ fs.length = 1 ∨ fs.length = 2 := by omega
  rcases h3 with h | h | h <;> rw [h] <;> push_cast <;> norm_num <;> ring

/-- C2 witness: the amended statement at `"45,8"` (one fraction digit). -/
theorem c2_witness :
    (∀ d ∈ [4, 5], d < 10) ∧ (∀ d ∈ [8], d < 10) ∧ (([4, 5] : List ℕ) ≠ []) ∧
      (([8] : List ℕ).length ≤ 2) ∧
      ∃ n : ℤ, parse_currency ⟨decChars [4, 5] ++ ',' :: decChars [8]⟩ = (n : ℚ) / 100 :=
  ⟨by decide, by decide, by decide, by decide,
   c2_two_decimals_when_input_has_two [4, 5] [8] (by decide) (by decide) (by decide) (by decide)⟩

/-! ## Claim C1: the adaptive matcher -/

/-- The scores of all partial-match candidates (at most five per keyword,
    ranked by descending usage count; keywords shorter than three
    characters contribute none). -/
def candScores (store : List CatPattern) (nd : String) : List ℚ :=
  (_extract_keywords nd).flatMap fun kw =>
    if kw.length < 3 then [] else (candidatesFor store kw).map (scoreOf nd)

/-- The maximum candidate score (`0` when there are no candidates). -/
def maxCandScore (store : List CatPattern) (nd : String) : ℚ :=
  (candScores store nd).foldr max 0

/-- `0.6` is positive. -/
theorem divInt_three_fifths_pos : (0 : ℚ) < Rat.divInt 3 5 := by
  rw [Rat.divInt_eq_div]
  norm_num

/-- `0.6 < 0.9`. -/
theorem divInt_three_fifths_lt : Rat.divInt 3 5 < Rat.divInt 9 10 := by
  rw [Rat.divInt_eq_div, Rat.divInt_eq_div]
  norm_num

/-- The best-candidate fold: it ends at the maximum score when some score
    beats both the threshold and the incoming best, and is the identity
    otherwise. -/
theorem bestFold_spec (nd : String) :
    ∀ (l : List CatPattern) (b0 : Option CatPattern) (s0 : ℚ),
      if (l.map (scoreOf nd)).foldr max 0 > s0 ∧
          (l.map (scoreOf nd)).foldr max 0 > Rat.divInt 3 5 then
        ∃ p, l.foldl (bestStep nd) (b0, s0) = (some p, (l.map (scoreOf nd)).foldr max 0)
      else l.foldl (bestStep nd) (b0, s0) = (b0, s0) := by
  intro l
  induction l with
  | nil =>
    intro b0 s0
    rw [if_neg]
    · rfl
    · rintro ⟨-, h⟩
      simp only [List.map_nil, List.foldr_nil] at h
      exact absurd h (not_lt.mpr divInt_three_fifths_pos.le)
  | cons p t ih =>
    intro b0 s0
    simp only [List.map_cons, List.foldr_cons, List.foldl_cons]
    set sc := scoreOf nd p with hsc
    set M1 := (t.map (scoreOf nd)).foldr max 0 with hM1
    by_cases h1 : sc > s0 ∧ sc > Rat.divInt 3 5
    · rw [show bestStep nd (b0, s0) p = (some p, sc) from by
        simp only [bestStep]; rw [if_pos h1]]
      have iht := ih (some p) sc
      by_cases h2 : M1 > sc ∧ M1 > Rat.divInt 3 5
      · rw [if_pos h2] at iht
        obtain ⟨p', hp'⟩ := iht
        have hM : max sc M1 = M1 := max_eq_right h2.1.le
        rw [if_pos ⟨by rw [hM]; exact lt_trans h1.1 h2.1, by rw [hM]; exact h2.2⟩]
        exact ⟨p', by rw [hp', hM]⟩
      · rw [if_neg h2] at iht
        have hM : max sc M1 = sc := by
          rcases not_and_or.mp h2 with h | h
          · exact max_eq_left (not_lt.mp h)
          · have : M1 ≤ Rat.divInt 3 5 := not_lt.mp h
            exact max_eq_left (this.trans h1.2.le)
        rw [if_pos ⟨by rw [hM]; exact h1.1, by rw [hM]; exact h1.2⟩]
        exact ⟨p, by rw [iht, hM]⟩
    · rw [show bestStep nd (b0, s0) p = (b0, s0) from by
        simp only [bestStep]; rw [if_neg h1]]
      have iht := ih b0 s0
      by_cases h2 : M1 > s0 ∧ M1 > Rat.divInt 3 5
      · rw [if_pos h2] at iht
        obtain ⟨p', hp'⟩ := iht
        have hM : max sc M1 = M1 := by
          rcases le_or_lt sc M1 with h | h
          · exact max_eq_right h
          · exfalso
            exact h1 ⟨lt_trans h2.1 h, lt_trans h2.2 h⟩
        rw [if_pos ⟨by rw [hM]; exact h2.1, by rw [hM]; exact h2.2⟩]
        exact ⟨p', by rw [hp', hM]⟩
      · rw [if_neg h2] at iht
        rw [if_neg]
        · exact iht
        · rintro ⟨ha, hb⟩
          rcases max_choice sc M1 with h | h
          · rw [h] at ha hb
            exact h1 ⟨ha, hb⟩
          · rw [h] at ha hb
            exact h2 ⟨ha, hb⟩

/-- The keyword loop is the flattened candidate fold. -/
theorem foldl_flatMap_best (nd : String) (store : List CatPattern) :
    ∀ (kws : List String) (acc : Option CatPattern × ℚ),
      kws.foldl (bestOverKw store nd) acc =
        (kws.flatMap fun kw =>
          if kw.length < 3 then [] else candidatesFor store kw).foldl (bestStep nd) acc := by
  intro kws
  induction kws with
  | nil => intro acc; rfl
  | cons kw t ih =>
    intro acc
    simp only [List.foldl_cons, List.flatMap_cons, List.foldl_append]
    by_cases h : kw.length < 3
    · simp only [bestOverKw, if_pos h, ih, List.foldl_nil]
    · simp only [bestOverKw, if_neg h, ih]

/-- The candidate scores are the scores of the flattened candidates. -/
theorem candScores_eq (store : List CatPattern) (nd : String) :
    candScores store nd =
      ((_extract_keywords nd).flatMap fun kw =>
        if kw.length < 3 then [] else candidatesFor store kw).map (scoreOf nd) := by
  rw [List.map_flatMap]
  unfold candScores
  congr 1
  funext kw
  by_cases h : kw.length < 3 <;> simp [h]

/-- C1: `find_matching_category` returns an exact match — confidence `0.95`
    (`Rat.divInt 95 100`), match type `"exact"`, the stored pattern's
    category — whenever the normalized description has a stored pattern;
    otherwise it accepts a partial match exactly when the maximum candidate
    score (Jaccard similarity plus `min(usageCount * 0.1, 0.3)`, over at
    most five candidates per keyword ranked by descending usage count)
    exceeds `0.6` (`Rat.divInt 3 5`), reporting match type `"partial"` and
    confidence `min score 0.9`, which always lies in `(0.6, 0.9]`;
    otherwise it reports `found = false`. -/
theorem c1_find_matching_category_spec :
    ∀ (store : List CatPattern) (descricao : String),
      (∀ p, findOneNd store (_normalize_description descricao) = some p →
        find_matching_category store descricao =
          ⟨true, some p.categoria, Rat.divInt 95 100, some p, some "exact"⟩) ∧
      (findOneNd store (_normalize_description descricao) = none →
        (Rat.divInt 3 5 < maxCandScore store (_normalize_description descricao) →
          (find_matching_category store descricao).found = true ∧
          (find_matching_category store descricao).match_type = some "partial" ∧
          (find_matching_category store descricao).confidence =
            min (maxCandScore store (_normalize_description descricao)) (Rat.divInt 9 10) ∧
          Rat.divInt 3 5 < (find_matching_category store descricao).confidence ∧
          (find_matching_category store descricao).confidence ≤ Rat.divInt 9 10) ∧
        (maxCandScore store (_normalize_description descricao) ≤ Rat.divInt 3 5 →
          find_matching_category store descricao = ⟨false, none, 0, none, none⟩)) := by
  intro store descricao
  constructor
  · intro p hp
    simp only [find_matching_category]
    rw [hp]
  · intro hnone
    have hM : maxCandScore store (_normalize_description descricao) =
        (((_extract_keywords (_normalize_description descricao)).flatMap fun kw =>
          if kw.length < 3 then [] else candidatesFor store kw).map
            (scoreOf (_normalize_description descricao))).foldr max 0 := by
      rw [maxCandScore, candScores_eq]
    have hfold := bestFold_spec (_normalize_description descricao)
      ((_extract_keywords (_normalize_description descricao)).flatMap fun kw =>
        if kw.length < 3 then [] else candidatesFor store kw) none 0
    constructor
    · intro hth
      have hcond : (((_extract_keywords (_normalize_description descricao)).flatMap fun kw =>
          if kw.length < 3 then [] else candidatesFor store kw).map
            (scoreOf (_normalize_description descricao))).foldr max 0 > 0 ∧
          (((_extract_keywords (_normalize_description descricao)).flatMap fun kw =>
          if kw.length < 3 then [] else candidatesFor store kw).map
            (scoreOf (_normalize_description descricao))).foldr max 0 > Rat.divInt 3 5 := by
        rw [← hM]
        exact ⟨lt_trans divInt_three_fifths_pos hth, hth⟩
      rw [if_pos hcond] at hfold
      obtain ⟨p, hp⟩ := hfold
      have hres : find_matching_category store descricao =
          ⟨true, some p.categoria,
            qmin (maxCandScore store (_normalize_description descricao)) (Rat.divInt 9 10),
            some p, some "partial"⟩ := by
        simp only [find_matching_category]
        rw [hnone, foldl_flatMap_best, hp, hM]
      rw [hres, qmin_eq]
      refine ⟨rfl, rfl, rfl, ?_, min_le_right _ _⟩
      exact lt_min hth divInt_three_fifths_lt
    · intro hth
      have hcond : ¬ ((((_extract_keywords (_normalize_description descricao)).flatMap fun kw =>
          if kw.length < 3 then [] else candidatesFor store kw).map
            (scoreOf (_normalize_description descricao))).foldr max 0 > 0 ∧
          (((_extract_keywords (_normalize_description descricao)).flatMap fun kw =>
          if kw.length < 3 then [] else candidatesFor store kw).map
            (scoreOf (_normalize_description descricao))).foldr max 0 > Rat.divInt 3 5) := by
        rw [← hM]
        rintro ⟨-, hb⟩
        exact absurd hb (not_lt.mpr hth)
      rw [if_neg hcond] at hfold
      simp only [find_matching_category]
      rw [hnone, foldl_flatMap_best, hfold]

/-- The stored pattern of the C1 witness scenarios. -/
def c1pat : CatPattern :=
  { original_desc := "Supermercado ABC Ltda", normalized_desc := "supermercado abc ltda",
    categoria := "alimentacao", banco := none, origem_cartao := none, usage_count := 1,
    created_at := 10, last_used := 10, confidence_score := 1 }

/-- C1 witness: the exact branch, the partial branch (score `23/30`), and
    the not-found branch, at concrete stores and queries. -/
theorem c1_witness :
    (findOneNd [c1pat] (_normalize_description "Supermercado ABC Ltda") = some c1pat ∧
      find_matching_category [c1pat] "Supermercado ABC Ltda" =
        ⟨true, some c1pat.categoria, Rat.divInt 95 100, some c1pat, some "exact"⟩) ∧
    (findOneNd [c1pat] (_normalize_description "Supermercado ABC") = none ∧
      Rat.divInt 3 5 < maxCandScore [c1pat] (_normalize_description "Supermercado ABC") ∧
      (find_matching_category [c1pat] "Supermercado ABC").found = true ∧
      (find_matching_category [c1pat] "Supermercado ABC").match_type = some "partial" ∧
      (find_matching_category [c1pat] "Supermercado ABC").confidence =
        min (maxCandScore [c1pat] (_normalize_description "Supermercado ABC"))
          (Rat.divInt 9 10) ∧
      Rat.divInt 3 5 < (find_matching_category [c1pat] "Supermercado ABC").confidence ∧
      (find_matching_category [c1pat] "Supermercado ABC").confidence ≤ Rat.divInt 9 10) ∧
    (findOneNd [c1pat] (_normalize_description "Posto Shell") = none ∧
      maxCandScore [c1pat] (_normalize_description "Posto Shell") ≤ Rat.divInt 3 5 ∧
      find_matching_category [c1pat] "Posto Shell" = ⟨false, none, 0, none, none⟩) :=
  ⟨⟨by decide, (c1_find_matching_category_spec [c1pat] "Supermercado ABC Ltda").1 c1pat
      (by decide)⟩,
   ⟨by decide, by decide,
    ((c1_find_matching_category_spec [c1pat] "Supermercado ABC").2 (by decide)).1 (by decide)⟩,
   ⟨by decide, by decide,
    ((c1_find_matching_category_spec [c1pat] "Posto Shell").2 (by decide)).2 (by decide)⟩⟩

/-! ## Claims C7 and C8: extraction order, containment, installments -/

/-- A successful `firstSome` comes from some element of the list. -/
theorem firstSome_some {α β : Type} : ∀ {l : List α} {f : α → Option β} {b : β},
    firstSome l f = some b → ∃ a ∈ l, f a = some b := by
  intro l
  induction l with
  | nil => intro f b h; simp [firstSome] at h
  | cons a t ih =>
    intro f b h
    simp only [firstSome] at h
    cases hfa : f a with
    | some c =>
      rw [hfa] at h
      have hcb : c = b := by simpa using h
      exact ⟨a, by simp, hfa.trans (by rw [hcb])⟩
    | none =>
      rw [hfa] at h
      have h' : firstSome t f = some b := by simpa using h
      obtain ⟨x, hx, hfx⟩ := ih h'
      exact ⟨x, List.mem_cons_of_mem _ hx, hfx⟩

/-- A match never ends before its starting position. -/
theorem matchSeq_le (ci : Bool) : ∀ (atoms : List Atom) (s : List Char) (pos : ℕ)
    (os : List (ℕ × ℕ)) (caps : List (ℕ × ℕ × ℕ)) (e : ℕ) (cps : List (ℕ × ℕ × ℕ)),
    matchSeq ci atoms s pos os caps = some (e, cps) → pos ≤ e := by
  intro atoms
  induction atoms with
  | nil =>
    intro s pos os caps e cps h
    simp only [matchSeq, Option.some.injEq, Prod.mk.injEq] at h
    omega
  | cons a rest ih =>
    intro s pos os caps e cps h
    cases a with
    | lit c =>
      cases s with
      | nil => simp [matchSeq] at h
      | cons x xs =>
        simp only [matchSeq] at h
        by_cases hx : eqCh ci x c = true
        · rw [if_pos hx] at h
          have := ih _ _ _ _ _ _ h
          omega
        · rw [if_neg hx] at h
          simp at h
    | cls cc q =>
      simp only [matchSeq] at h
      obtain ⟨n, _, hf⟩ := firstSome_some h
      have := ih _ _ _ _ _ _ hf
      omega
    | gOpen i =>
      simp only [matchSeq] at h
      exact ih _ _ _ _ _ _ h
    | gClose =>
      simp only [matchSeq] at h
      cases os with
      | nil => simp at h
      | cons p os' =>
        obtain ⟨i, st⟩ := p
        exact ih _ _ _ _ _ _ h
    | eol =>
      simp only [matchSeq] at h
      by_cases hx : (s.isEmpty || s.head? == some '\n') = true
      · rw [if_pos hx] at h
        exact ih _ _ _ _ _ _ h
      · rw [if_neg hx] at h
        simp at h

/-- A search result starts at or after the scanning position and spans
    forward. -/
theorem searchFrom_bounds (ci : Bool) (atoms : List Atom) :
    ∀ (s : List Char) (pos : ℕ) (m : RMatch),
      searchFrom ci atoms s pos = some m → pos ≤ m.mstart ∧ m.mstart ≤ m.mstop := by
  intro s
  induction s with
  | nil =>
    intro pos m h
    simp only [searchFrom] at h
    cases hm : matchSeq ci atoms [] pos [] [] with
    | none => rw [hm] at h; simp at h
    | some p =>
      rw [hm] at h
      obtain ⟨e, cps⟩ := p
      simp only [Option.some.injEq] at h
      subst h
      exact ⟨le_refl _, matchSeq_le ci _ _ _ _ _ _ _ hm⟩
  | cons x xs ih =>
    intro pos m h
    simp only [searchFrom] at h
    cases hm : matchSeq ci atoms (x :: xs) pos [] [] with
    | none =>
      rw [hm] at h
      have := ih (pos + 1) m h
      omega
    | some p =>
      rw [hm] at h
      obtain ⟨e, cps⟩ := p
      simp only [Option.some.injEq] at h
      subst h
      exact ⟨le_refl _, matchSeq_le ci _ _ _ _ _ _ _ hm⟩

/-- Every match the scanning loop yields starts at or after the scanning
    position. -/
theorem finditerAux_mem_bounds (ci : Bool) (atoms : List Atom) :
    ∀ (fuel : ℕ) (s : List Char) (pos : ℕ) (m : RMatch),
      m ∈ finditerAux ci atoms fuel s pos → pos ≤ m.mstart ∧ m.mstart ≤ m.mstop := by
  intro fuel
  induction fuel with
  | zero => intro s pos m h; simp [finditerAux] at h
  | succ fuel ih =>
    intro s pos m h
    cases s with
    | nil =>
      simp only [finditerAux] at h
      cases hs : searchFrom ci atoms [] pos with
      | none => rw [hs] at h; simp at h
      | some m0 =>
        rw [hs] at h
        simp only [List.mem_singleton] at h
        subst h
        exact searchFrom_bounds ci atoms [] pos m hs
    | cons x xs =>
      simp only [finditerAux] at h
      cases hs : searchFrom ci atoms (x :: xs) pos with
      | none => rw [hs] at h; simp at h
      | some m0 =>
        rw [hs] at h
        simp only [List.mem_cons] at h
        rcases h with rfl | h
        · exact searchFrom_bounds ci atoms _ pos m hs
        · have hb := ih _ _ _ h
          refine ⟨?_, hb.2⟩
          have h1 : pos ≤ pos + max 1 ((if m0.mstop > m0.mstart then m0.mstop
            else m0.mstop + 1) - pos) := Nat.le_add_right _ _
          omega

/-- C7's document-order statement: matches are yielded strictly left to
    right and without overlap. -/
theorem finditerAux_chain (ci : Bool) (atoms : List Atom) :
    ∀ (fuel : ℕ) (s : List Char) (pos : ℕ),
      List.Chain' (fun a b : RMatch => a.mstart < b.mstart ∧ a.mstop ≤ b.mstart)
        (finditerAux ci atoms fuel s pos) := by
  intro fuel
  induction fuel with
  | zero => intro s pos; simp [finditerAux]
  | succ fuel ih =>
    intro s pos
    cases s with
    | nil =>
      simp only [finditerAux]
      cases searchFrom ci atoms [] pos <;> simp
    | cons x xs =>
      simp only [finditerAux]
      cases hs : searchFrom ci atoms (x :: xs) pos with
      | none => simp
      | some m0 =>
        simp only
        apply List.chain'_cons'.mpr
        refine ⟨?_, ih _ _⟩
        intro y hy
        have hym := List.mem_of_mem_head? hy
        have hyb := finditerAux_mem_bounds ci atoms _ _ _ _ hym
        have hm0 := searchFrom_bounds ci atoms _ _ _ hs
        by_cases hcase : m0.mstop > m0.mstart
        · rw [if_pos hcase] at hyb
          constructor <;> omega
        · rw [if_neg hcase] at hyb
          constructor <;> omega

/-- The extraction loop is `filterMap`: failing matches are skipped. -/
theorem processLoop_eq_filterMap {M T : Type} (l : List M) (f : M → Option T) :
    processLoop l f = l.filterMap f := by
  induction l with
  | nil => rfl
  | cons x xs ih => cases hx : f x <;> simp [processLoop, hx, ih, List.filterMap_cons]

/-- C7: transactions come out in document order — `extract_transactions`
    maps over the non-overlapping pattern matches, which are yielded
    strictly left to right — and per-match processing is containment
    wrapped: a match whose processing fails is skipped while every other
    match, before and after it, is still processed. -/
theorem c7_extract_order_and_containment :
    (∀ (currentYear : ℕ) (now : PDate) (dateutil : String → Option PDate)
       (text : String) (bank : Bank),
       extract_transactions currentYear now dateutil text bank =
         (pyFinditer true (grammar bank).transaction text).filterMap
           (processMatch currentYear now dateutil text bank)) ∧
    (∀ (ci : Bool) (atoms : List Atom) (s : String),
       List.Chain' (fun a b : RMatch => a.mstart < b.mstart ∧ a.mstop ≤ b.mstart)
         (pyFinditer ci atoms s)) ∧
    (∀ (l1 l2 : List RMatch) (m : RMatch) (f : RMatch → Option Transaction),
       f m = none →
       processLoop (l1 ++ m :: l2) f = processLoop l1 f ++ processLoop l2 f) := by
  refine ⟨?_, ?_, ?_⟩
  · intro cy now du text bank
    rw [extract_transactions, processLoop_eq_filterMap]
  · intro ci atoms s
    exact finditerAux_chain ci atoms _ _ _
  · intro l1 l2 m f h
    rw [processLoop_eq_filterMap, processLoop_eq_filterMap, processLoop_eq_filterMap,
      List.filterMap_append]
    simp [List.filterMap_cons, h]

/-- C7 witness: the containment conjunct at a concrete failing match. -/
theorem c7_witness :
    processLoop ([] ++ (⟨0, 0, []⟩ : RMatch) :: [])
        (fun _ : RMatch => (none : Option Transaction)) =
      processLoop [] (fun _ : RMatch => (none : Option Transaction)) ++
        processLoop [] (fun _ : RMatch => (none : Option Transaction)) :=
  c7_extract_order_and_containment.2.2 [] [] ⟨0, 0, []⟩ (fun _ => none) rfl

/-- The installment block yields either both captured integers with a set
    flag, or neither with a cleared flag. -/
theorem installmentOf_shape (bank : Bank) (d : String) :
    (∃ a b, installmentOf bank d = (true, some a, some b)) ∨
    installmentOf bank d = (false, none, none) := by
  unfold installmentOf
  cases pySearch true (grammar bank).installment d with
  | some m2 => exact Or.inl ⟨_, _, rfl⟩
  | none => exact Or.inr rfl

/-- C8: every extracted transaction satisfies the installment invariant —
    `parcela_atual` and `parcela_total` are both present or both absent,
    and presence coincides with the installment flag; under the nubank
    grammar (`n/m` pattern), `"IFOOD DELIVERY 2/6"` gives
    `current = 2, total = 6` and a marker-free description gives neither. -/
theorem c8_installment_invariant :
    (∀ (currentYear : ℕ) (now : PDate) (dateutil : String → Option PDate)
       (text : String) (bank : Bank) (t : Transaction),
       t ∈ extract_transactions currentYear now dateutil text bank →
       ((t.parcela_atual.isSome ↔ t.parcela_total.isSome) ∧
        (t.parcelado = "Sim" ↔ t.parcela_atual.isSome))) ∧
    installmentOf Bank.nubank "IFOOD DELIVERY 2/6" = (true, some 2, some 6) ∧
    installmentOf Bank.nubank "POSTO SHELL" = (false, none, none) := by
  refine ⟨?_, by decide, by decide⟩
  intro cy now du text bank t ht
  rw [extract_transactions, processLoop_eq_filterMap] at ht
  obtain ⟨m, _, hpm⟩ := List.mem_filterMap.mp ht
  simp only [processMatch, Option.some.injEq] at hpm
  subst hpm
  rcases installmentOf_shape bank (groupStr text.data m 2) with ⟨a, b, hsh⟩ | hsh <;>
    simp [hsh]

/-- The transaction extracted in the C8 witness scenario. -/
def c8tx : Transaction :=
  { data := "12/05/2025", descricao := "IFOOD DELIVERY 2/6", parcelado := "Sim",
    parcela_atual := some 2, parcela_total := some 6, valor := 50,
    categoria := "alimentacao", banco := "nubank" }

/-- C8 witness: the invariant instantiated at a concrete extraction. -/
theorem c8_witness :
    c8tx ∈ extract_transactions 2025 ⟨2025, 1, 1⟩ (fun _ => none)
        "12/05 IFOOD DELIVERY 2/6 R$ 50,00" Bank.nubank ∧
    ((c8tx.parcela_atual.isSome ↔ c8tx.parcela_total.isSome) ∧
     (c8tx.parcelado = "Sim" ↔ c8tx.parcela_atual.isSome)) :=
  ⟨by decide, c8_installment_invariant.1 2025 ⟨2025, 1, 1⟩ (fun _ => none)
    "12/05 IFOOD DELIVERY 2/6 R$ 50,00" Bank.nubank c8tx (by decide)⟩

/-! ## Claim C6: date parsing -/

/-- The effective format of `parse_date` after the year-append step. -/
def effFmt (date_format : String) (year : Option ℕ) : String :=
  if yearTruthy year && !(pyIn "%Y" date_format) then date_format ++ "/%Y" else date_format

/-- The effective date string of `parse_date` after the year-append and
    month-transliteration steps. -/
def effStr (date_str date_format : String) (year : Option ℕ) : String :=
  let d1 :=
    if yearTruthy year && !(pyIn "%Y" date_format) then
      date_str ++ "/" ++ toString (year.getD 0)
    else date_str
  if pyIn "%b" (effFmt date_format year) then translitMonths d1 else d1

/-- `parse_date` is the fallback chain over the effective string/format. -/
theorem parse_date_eq (du : String → Option PDate) (now : PDate) (ds fmt : String)
    (y : Option ℕ) :
    parse_date du now ds fmt y =
      (match strptimeD (effStr ds fmt y) (effFmt fmt y) with
       | some d => d
       | none =>
         match du (effStr ds fmt y) with
         | some d => d
         | none => now) := by
  unfold parse_date effStr effFmt
  by_cases h : (yearTruthy y && !(pyIn "%Y" fmt)) = true <;> simp [h]

/-- C6: `parse_date` is total: it applies the grammar's date format — with
    the current year appended when the format has no `%Y` directive and the
    Portuguese month abbreviations transliterated first — and on failure
    falls back to the free-form parser, and on failure again to `now`; with
    the two-directive format `%d/%m` and the current year, every valid
    day/month renders to that calendar date of the current year. -/
theorem c6_parse_date_total_fallback :
    (∀ (du : String → Option PDate) (now : PDate) (ds fmt : String) (y : Option ℕ) (d : PDate),
       strptimeD (effStr ds fmt y) (effFmt fmt y) = some d →
       parse_date du now ds fmt y = d) ∧
    (∀ (du : String → Option PDate) (now : PDate) (ds fmt : String) (y : Option ℕ) (d : PDate),
       strptimeD (effStr ds fmt y) (effFmt fmt y) = none →
       du (effStr ds fmt y) = some d →
       parse_date du now ds fmt y = d) ∧
    (∀ (du : String → Option PDate) (now : PDate) (ds fmt : String) (y : Option ℕ),
       strptimeD (effStr ds fmt y) (effFmt fmt y) = none →
       du (effStr ds fmt y) = none →
       parse_date du now ds fmt y = now) ∧
    (∀ (du : String → Option PDate) (now : PDate) (d m : ℕ),
       1 ≤ d → 1 ≤ m → m ≤ 12 → d ≤ daysInMonth 2025 m →
       parse_date du now (pad2 d ++ "/" ++ pad2 m) "%d/%m" (some 2025) =
         ⟨2025, m, d⟩) := by
  refine ⟨?_, ?_, ?_, ?_⟩
  · intro du now ds fmt y d h
    rw [parse_date_eq, h]
  · intro du now ds fmt y d h1 h2
    rw [parse_date_eq, h1, h2]
  · intro du now ds fmt y h1 h2
    rw [parse_date_eq, h1, h2]
  · intro du now d m h1 h2 h3 h4
    interval_cases m <;> norm_num [daysInMonth, isLeap] at h4 <;> interval_cases d <;> rfl

/-- C6 witness: the four branches at concrete inputs — a parse through the
    primary format, a fallback to the free-form parser, a fallback to
    `now`, and the current-year assumption for `12/05`. -/
theorem c6_witness :
    (strptimeD (effStr "12/05" "%d/%m" (some 2025)) (effFmt "%d/%m" (some 2025)) =
        some ⟨2025, 5, 12⟩ ∧
      parse_date (fun _ => none) ⟨1999, 9, 9⟩ "12/05" "%d/%m" (some 2025) = ⟨2025, 5, 12⟩) ∧
    (strptimeD (effStr "garbage" "%d/%m" (some 2025)) (effFmt "%d/%m" (some 2025)) = none ∧
      parse_date (fun _ => some ⟨2024, 1, 2⟩) ⟨1999, 9, 9⟩ "garbage" "%d/%m" (some 2025) =
        ⟨2024, 1, 2⟩) ∧
    (parse_date (fun _ => none) ⟨1999, 9, 9⟩ "garbage" "%d/%m" (some 2025) = ⟨1999, 9, 9⟩) ∧
    (parse_date (fun _ => none) ⟨1999, 9, 9⟩ (pad2 31 ++ "/" ++ pad2 1) "%d/%m" (some 2025)
      = ⟨2025, 1, 31⟩) :=
  ⟨⟨by decide, c6_parse_date_total_fallback.1 (fun _ => none) ⟨1999, 9, 9⟩ "12/05" "%d/%m"
      (some 2025) ⟨2025, 5, 12⟩ (by decide)⟩,
   ⟨by decide, c6_parse_date_total_fallback.2.1 (fun _ => some ⟨2024, 1, 2⟩) ⟨1999, 9, 9⟩
      "garbage" "%d/%m" (some 2025) ⟨2024, 1, 2⟩ (by decide) rfl⟩,
   c6_parse_date_total_fallback.2.2.1 (fun _ => none) ⟨1999, 9, 9⟩ "garbage" "%d/%m"
      (some 2025) (by decide) rfl,
   c6_parse_date_total_fallback.2.2.2 (fun _ => none) ⟨1999, 9, 9⟩ 31 1 (by decide) (by decide)
      (by decide) (by decide)⟩

/-- The stored pattern of the C10 witness scenario. -/
def c10pat : CatPattern :=
  { original_desc := "Supermercado ABC Ltda", normalized_desc := "supermercado abc ltda",
    categoria := "alimentacao", banco := none, origem_cartao := none, usage_count := 1,
    created_at := 10, last_used := 10, confidence_score := 1 }

/-- C10 witness: after a conflicting correction (`"lazer"`) for an already
    learned description, the store is the old store plus one new pattern,
    and an exact query still returns `"alimentacao"`. -/
theorem c10_witness :
    save_categorization_pattern 20 [c10pat] "Supermercado ABC Ltda" "lazer" none none =
      [c10pat] ++ [{ original_desc := "Supermercado ABC Ltda",
                     normalized_desc := _normalize_description "Supermercado ABC Ltda",
                     categoria := "lazer", banco := none, origem_cartao := none,
                     usage_count := 1, created_at := 20, last_used := 20,
                     confidence_score := 1 }] ∧
    find_matching_category
        (save_categorization_pattern 20 [c10pat] "Supermercado ABC Ltda" "lazer" none none)
        "Supermercado ABC Ltda" =
      ⟨true, some c10pat.categoria, Rat.divInt 95 100, some c10pat, some "exact"⟩ :=
  ⟨(c10_pattern_keying [c10pat] "Supermercado ABC Ltda" "lazer" 20 none none (by decide)).1,
   (c10_pattern_keying [c10pat] "Supermercado ABC Ltda" "lazer" 20 none none (by decide)).2
     c10pat (by decide)⟩

end Cartao
